import Mathlib

/-!
Verification development for the wayfind DAP session engine.

This file gives a shallow embedding of the core of the debugger back-end
(`src-tauri/src/debug_state.rs`, `src-tauri/src/debugger/client.rs`,
`src-tauri/src/main.rs`, `src-tauri/src/debugger/util.rs`) and proves or
refutes the behavioural claims about it.

Modelling conventions:
- JSON values (serde_json `Value`) are modelled by the inductive `Json`.
  Numbers are restricted to integers (the DAP fields in play are integers);
  objects are association lists in textual order.
- Machine integers (`i32`, `i64`, `u64`) are modelled by `Int`/`Nat`; the
  counters in play never wrap in any run the claims quantify over.
- The byte stream is modelled as `List Char`; `Content-Length` counts list
  elements (this coincides with byte counts on ASCII frames and is an
  abstraction of the byte-exact reader otherwise).
- Real I/O (the TCP socket, the Tauri event channel, timeouts) is modelled
  by explicit inputs and outputs: the result of the bounded stack-trace
  lookup is an oracle argument `loc : Option (String × Int)`, and the
  `app_handle.emit` calls are collected in an output list of `UiEvent`s.
-/

/-- Model of `serde_json::Value` restricted to integer numbers.  Objects
are association lists kept in textual order. -/
inductive Json where
  | null : Json
  | bool (b : Bool) : Json
  | num (n : Int) : Json
  | str (s : String) : Json
  | arr (xs : List Json) : Json
  | obj (fields : List (String × Json)) : Json

/-- Model of `Value::get` on objects (`body.get("reason")` etc.): first
binding of the key, `none` on non-objects. -/
def Json.get (j : Json) (key : String) : Option Json :=
  match j with
  | Json.obj fields => (fields.find? (fun p => p.1 == key)).map (fun p => p.2)
  | _ => none

/-- Model of `Value::as_i64`. -/
def Json.asI64 : Json → Option Int
  | Json.num n => some n
  | _ => none

/-- Model of `Value::as_str`. -/
def Json.asStr : Json → Option String
  | Json.str s => some s
  | _ => none

/-- Model of `Value::as_bool`. -/
def Json.asBool : Json → Option Bool
  | Json.bool b => some b
  | _ => none

/-- The `MessageType` enum of `debugger/client.rs` (serde lowercase). -/
inductive MessageType where
  | Request : MessageType
  | Response : MessageType
  | Event : MessageType
deriving DecidableEq

/-- Wire name of a `MessageType` under `#[serde(rename_all = "lowercase")]`. -/
def MessageType.toWire : MessageType → String
  | MessageType.Request => "request"
  | MessageType.Response => "response"
  | MessageType.Event => "event"

/-- Inverse of `MessageType.toWire`, as serde deserialization does it. -/
def MessageType.ofWire (s : String) : Option MessageType :=
  if s = "request" then some MessageType.Request
  else if s = "response" then some MessageType.Response
  else if s = "event" then some MessageType.Event
  else none

/-- The `DAPMessage` struct of `debugger/client.rs`.  `seq` is an `i32`
in the source, modelled by `Int`. -/
structure DAPMessage where
  seq : Int
  message_type : MessageType
  command : Option String
  request_seq : Option Int
  success : Option Bool
  body : Option Json
  event : Option String
  arguments : Option Json

/-- The `DebuggerState` enum of `debug_state.rs`. -/
inductive DebuggerState where
  | NotStarted : DebuggerState
  | Configuring : DebuggerState
  | Running : DebuggerState
  | Paused (reason : String) (thread_id : Int) : DebuggerState
  | Terminated : DebuggerState
deriving DecidableEq

/-- Model of `DebugSessionState::handle_dap_event` (`debug_state.rs`,
lines 38-68): the state-record transition applied to one inbound message.
The Rust `match` on the event name is rendered as the equivalent if-chain;
a `stopped` event updates the state only when it carries a body, with
`reason` defaulting to `"unknown"` and `threadId` defaulting to `1`. -/
def handle_dap_event (s : DebuggerState) (msg : DAPMessage) : DebuggerState :=
  if msg.message_type = MessageType.Event then
    match msg.event with
    | some event_name =>
      if event_name = "initialized" then DebuggerState.Configuring
      else if event_name = "continued" then DebuggerState.Running
      else if event_name = "stopped" then
        match msg.body with
        | some body =>
          DebuggerState.Paused
            (((body.get "reason").bind Json.asStr).getD "unknown")
            (((body.get "threadId").bind Json.asI64).getD 1)
        | none => s
      else if event_name = "terminated" then DebuggerState.Terminated
      else s
    | none => s
  else s

/-- Model of `DebugSessionState::handle_configuration_done`: sets the
state record to `Running` unconditionally. -/
def handle_configuration_done (_s : DebuggerState) : DebuggerState :=
  DebuggerState.Running

/-- The `debug-status` payload built by `emit_status_update`.  The only
fields ever inserted into the JSON object are `status`, `seq`,
`threadId`, and the pair `file`/`line`; `location` is `some` exactly when
the `file` and `line` fields are present. -/
structure StatusPayload where
  status : String
  seq : Nat
  threadId : Option Int
  location : Option (String × Int)
deriving DecidableEq

/-- Result of one `emit_status_update` call: the emitted payload, the new
value of the status counter, and whether `get_stack_frame_location` was
invoked. -/
structure EmitResult where
  payload : StatusPayload
  nextSeq : Nat
  lookedUp : Bool
deriving DecidableEq

/-- Model of `emit_status_update` (`debugger/client.rs`, lines 43-82).
`status_seq` is the current value of the `AtomicU64` counter;
`fetch_add(1)` stamps the old value on the payload.  `loc` is the oracle
for the outcome of `get_stack_frame_location` (`some` for `Ok`, `none`
for `Err`); it is consulted only inside the `if let Some(tid)` branch and
only when the status is `"paused"`. -/
def emit_status_update (status_seq : Nat) (status : String)
    (thread_id : Option Int) (loc : Option (String × Int)) : EmitResult :=
  match thread_id with
  | none =>
    { payload := { status := status, seq := status_seq, threadId := none, location := none }
      nextSeq := status_seq + 1
      lookedUp := false }
  | some tid =>
    if status = "paused" then
      { payload := { status := status, seq := status_seq, threadId := some tid, location := loc }
        nextSeq := status_seq + 1
        lookedUp := true }
    else
      { payload := { status := status, seq := status_seq, threadId := some tid, location := none }
        nextSeq := status_seq + 1
        lookedUp := false }

/-- Initial value of the `next_seq` request counter (`DAPClient::new`
sets `next_seq: Arc::new(Mutex::new(1))`). -/
def initialNextSeq : Int := 1

/-- Initial value of the status counter (`DebugSessionState::new` and
`DAPClient::new` both use `AtomicU64::new(0)`). -/
def initialStatusSeq : Nat := 0

/-- Model of the sequence-assignment step of `DAPClient::send_message`
(`debugger/client.rs`, lines 315-342): reads the counter, increments it,
stamps the read value on the frame and returns it.  The pair is
(assigned seq, new counter value). -/
def send_message (next_seq : Int) : Int × Int :=
  (next_seq, next_seq + 1)

/-- Seqs assigned by `n` successive `send_message` calls starting from
counter value `c`. -/
def sendRun (c : Int) : Nat → List Int
  | 0 => []
  | Nat.succ n =>
    let r := send_message c
    r.1 :: sendRun r.2 n

/-- Arguments of one `emit_status_update` call: status string, optional
thread id, and the location oracle. -/
def EmitArgs : Type := String × Option Int × Option (String × Int)

/-- Payloads produced by a run of successive `emit_status_update` calls
against the shared status counter, starting at counter value `c`. -/
def emitRun (c : Nat) : List EmitArgs → List StatusPayload
  | [] => []
  | a :: rest =>
    let r := emit_status_update c a.1 a.2.1 a.2.2
    r.payload :: emitRun r.nextSeq rest

/-- Insertion into the `responses: HashMap<i32, DAPMessage>` table,
modelled as an association list with replace-on-collision semantics. -/
def insertAssoc (k : Int) (v : DAPMessage) :
    List (Int × DAPMessage) → List (Int × DAPMessage)
  | [] => [(k, v)]
  | (k', v') :: rest =>
    if k' = k then (k, v) :: rest else (k', v') :: insertAssoc k v rest

/-- Lookup-and-remove on the responses table, as `HashMap::remove`. -/
def removeAssoc (k : Int) :
    List (Int × DAPMessage) → Option DAPMessage × List (Int × DAPMessage)
  | [] => (none, [])
  | (k', v') :: rest =>
    if k' = k then (some v', rest)
    else
      let r := removeAssoc k rest
      (r.1, (k', v') :: r.2)

/-- Model of one successful poll iteration of
`DAPClient::wait_for_response` (`debugger/client.rs`, lines 516-525):
`responses.lock().unwrap().remove(&seq)`.  The timeout path returns
`none` and leaves the table unchanged, which is the `(none, l)` case. -/
def wait_for_response (responses : List (Int × DAPMessage)) (seq : Int) :
    Option DAPMessage × List (Int × DAPMessage) :=
  removeAssoc seq responses

/-- Append to the `events: HashMap<String, Vec<DAPMessage>>` table
(`entry(evt).or_insert_with(Vec::new).push(msg)`). -/
def pushEvent (name : String) (msg : DAPMessage) :
    List (String × List DAPMessage) → List (String × List DAPMessage)
  | [] => [(name, [msg])]
  | (n, q) :: rest =>
    if n = name then (n, q ++ [msg]) :: rest else (n, q) :: pushEvent name msg rest

/-- Events emitted to the UI through `app_handle.emit`. -/
inductive UiEvent where
  | debugStatus (p : StatusPayload) : UiEvent
  | programOutput (s : String) : UiEvent
  | programError (s : String) : UiEvent
deriving DecidableEq

/-- Shared state visible to the receiver loop: the two correlation
tables, the canonical state record, and the status counter. -/
structure ReceiverState where
  responses : List (Int × DAPMessage)
  events : List (String × List DAPMessage)
  debugState : DebuggerState
  statusSeq : Nat

/-- Model of the per-message body of the receiver loop in
`DAPClient::start_receiver` (`debugger/client.rs`, lines 413-501), applied
to one successfully parsed `DAPMessage`:
1. `handle_dap_event` updates the state record;
2. the special event reactions run (`terminated` and `stopped` emit a
   `debug-status`, `output` forwards program output);
3. the frame is dispatched into the responses table (responses carrying a
   `request_seq`) or the events table (events carrying a name).
The forwarding of a copy on the `event_sender` channel carries no state
and is not represented.  Returns the new state and the `app_handle.emit`
calls in order. -/
def process_message (st : ReceiverState) (loc : Option (String × Int))
    (msg : DAPMessage) : ReceiverState × List UiEvent :=
  let ds := handle_dap_event st.debugState msg
  let special : Nat × List UiEvent :=
    if msg.message_type = MessageType.Event then
      match msg.event with
      | some evt =>
        if evt = "terminated" then
          let r := emit_status_update st.statusSeq "terminated" none loc
          (r.nextSeq, [UiEvent.debugStatus r.payload])
        else if evt = "stopped" then
          match msg.body with
          | some body =>
            let tid := (body.get "threadId").bind Json.asI64
            let r := emit_status_update st.statusSeq "paused" tid loc
            (r.nextSeq, [UiEvent.debugStatus r.payload])
          | none => (st.statusSeq, [])
        else if evt = "output" then
          match msg.body with
          | some body =>
            match (body.get "category").bind Json.asStr with
            | some cat =>
              if cat = "stdout" ∨ cat = "stderr" then
                match (body.get "output").bind Json.asStr with
                | some out =>
                  (st.statusSeq,
                    [if cat = "stderr" then UiEvent.programError out
                     else UiEvent.programOutput out])
                | none => (st.statusSeq, [])
              else (st.statusSeq, [])
            | none => (st.statusSeq, [])
          | none => (st.statusSeq, [])
        else (st.statusSeq, [])
      | none => (st.statusSeq, [])
    else (st.statusSeq, [])
  let responses' :=
    if msg.message_type = MessageType.Response then
      match msg.request_seq with
      | some k => insertAssoc k msg st.responses
      | none => st.responses
    else st.responses
  let events' :=
    if msg.message_type = MessageType.Event then
      match msg.event with
      | some name => pushEvent name msg st.events
      | none => st.events
    else st.events
  ({ responses := responses', events := events', debugState := ds,
     statusSeq := special.1 }, special.2)

/-- The `stackTrace` request built by `get_stack_trace_sync`
(`debugger/client.rs`, lines 133-272): a fixed `seq` of `10000` ("a high
sequence number to avoid conflicts"), never assigned by the session
client's `next_seq` counter, sent over a freshly opened TCP connection to
`127.0.0.1:5678` (falling back to `9123`), not over the session
transport. -/
def stackTraceSyncRequest (thread_id : Int) : DAPMessage :=
  { seq := 10000
    message_type := MessageType.Request
    command := some "stackTrace"
    request_seq := none
    success := none
    arguments := some (Json.obj
      [("threadId", Json.num thread_id), ("startFrame", Json.num 0),
       ("levels", Json.num 1)])
    body := none
    event := none }

/-- Ports tried by `get_stack_trace_sync` for its ad-hoc connection. -/
def stackTraceSyncPorts : List Nat := [5678, 9123]

/-- The `stepIn` request built by `DAPClient::step_in`
(`debugger/client.rs`, lines 693-725); `seq` is assigned later by
`send_message`, `-1` is the placeholder from the source. -/
def step_in_request (thread_id : Int) (granularity : Option String) : DAPMessage :=
  { seq := -1
    message_type := MessageType.Request
    command := some "stepIn"
    request_seq := none
    success := none
    arguments := some (Json.obj
      (("threadId", Json.num thread_id) ::
        (match granularity with
         | some g => [("granularity", Json.str g)]
         | none => [])))
    body := none
    event := none }

/-- The `next` request built by `DAPClient::next` (`debugger/client.rs`,
lines 727-746). -/
def next_request (thread_id : Int) : DAPMessage :=
  { seq := -1
    message_type := MessageType.Request
    command := some "next"
    request_seq := none
    success := none
    arguments := some (Json.obj [("threadId", Json.num thread_id)])
    body := none
    event := none }

/-- Model of the `step_in` command of `main.rs` (lines 464-478).
`has_client` is whether `debug_state.client` holds a session;
`current_thread_id` is the value of the `debug_state.current_thread_id`
cell at call time (the field is read here but its declaration is in a
revision of `debug_state.rs` not part of this snapshot; per the spec it
holds the thread id recorded at the last `stopped` event).  On success
the returned frame is the single DAP request handed to `send_message`;
on error no frame reaches the adapter. -/
def step_in (has_client : Bool) (current_thread_id : Option Int)
    (granularity : Option String) : Except String DAPMessage :=
  if !has_client then Except.error "No active debug session"
  else
    match current_thread_id with
    | none => Except.error "No current thread id available; debugger is not paused."
    | some tid => Except.ok (step_in_request tid granularity)

/-- Model of the `step_over` command of `main.rs` (lines 480-498). -/
def step_over (has_client : Bool) (current_thread_id : Option Int) :
    Except String DAPMessage :=
  if !has_client then Except.error "No active debug session"
  else
    match current_thread_id with
    | none => Except.error "No current thread id available; debugger is not paused."
    | some tid => Except.ok (next_request tid)

/-- The expression rewriting of `evaluate_expression` (`main.rs`, lines
532-543) for the launch-style (`rust`/LLDB) adapter: expressions not
already starting with the token `expr ` or `expression ` are wrapped as
`expr -- <expression>`. -/
def lldbRewrite (expression : String) : String :=
  if ("expr ".toList.isPrefixOf expression.toList
      || "expression ".toList.isPrefixOf expression.toList) then expression
  else "expr -- " ++ expression

/-! ### Frame codec and JSON wire model

`send_message` serializes with `serde_json::to_string` and prefixes
`Content-Length: N\r\n\r\n`; the receiver loop reads the header up to the
`\r\n\r\n` terminator, extracts `Content-Length` case-insensitively,
reads exactly that many bytes and parses them with
`serde_json::from_str::<DAPMessage>`.  The JSON text model restricts
numbers to integers and does not model `\u` surrogate pairs; the parser
is the recursive-descent reading of the grammar serde accepts on that
fragment, with a fuel argument standing in for unbounded recursion. -/

/-- Worker for `natToDigits`; the fuel only bounds the recursion depth
and `n + 1` is always enough. -/
def natToDigitsAux : Nat → Nat → List Char
  | 0, _ => []
  | Nat.succ fuel, n =>
    if n < 10 then [Nat.digitChar n]
    else natToDigitsAux fuel (n / 10) ++ [Nat.digitChar (n % 10)]

/-- Decimal digits of a natural number, as `format!` prints it. -/
def natToDigits (n : Nat) : List Char := natToDigitsAux (n + 1) n

/-- Value of a digit string (callers check all characters are digits). -/
def digitsVal (cs : List Char) : Nat :=
  cs.foldl (fun a c => 10 * a + (c.toNat - 48)) 0

/-- Model of `str::parse::<usize>` on the trimmed header slice: all
characters must be decimal digits and there must be at least one. -/
def parseNatDigits (cs : List Char) : Option Nat :=
  if cs ≠ [] ∧ cs.all Char.isDigit then some (digitsVal cs) else none

/-- Decimal rendering of an `i64`, as serde prints integer numbers. -/
def intToChars (n : Int) : List Char :=
  if n < 0 then '-' :: natToDigits n.natAbs else natToDigits n.toNat

/-- JSON whitespace (also the whitespace `str::trim` strips on the ASCII
header slices in play). -/
def isWsChar (c : Char) : Bool :=
  c = ' ' || c = '\t' || c = '\n' || c = '\r'

/-- Skip leading JSON whitespace. -/
def skipWs (cs : List Char) : List Char := cs.dropWhile isWsChar

/-- Escape of one character inside a JSON string, as serde_json writes
it: quote and backslash escaped, named escapes for the usual control
characters, `\u00XX` (lowercase hex) for the remaining control
characters, everything else verbatim. -/
def escapeChar (c : Char) : List Char :=
  if c = '"' then ['\\', '"']
  else if c = '\\' then ['\\', '\\']
  else if c = '\x08' then ['\\', 'b']
  else if c = '\x09' then ['\\', 't']
  else if c = '\x0a' then ['\\', 'n']
  else if c = '\x0c' then ['\\', 'f']
  else if c = '\x0d' then ['\\', 'r']
  else if c.toNat < 32 then
    ['\\', 'u', '0', '0', Nat.digitChar (c.toNat / 16), Nat.digitChar (c.toNat % 16)]
  else [c]

/-- Escape a whole string body. -/
def escapeString (l : List Char) : List Char := (l.map escapeChar).flatten

/-- Printed form of a JSON string, quotes included. -/
def printStr (s : String) : List Char := '"' :: (escapeString s.toList ++ ['"'])

mutual

/-- Compact JSON printing, as `serde_json::to_string` emits it (no
whitespace, fields in order). -/
def printJson : Json → List Char
  | Json.null => "null".toList
  | Json.bool true => "true".toList
  | Json.bool false => "false".toList
  | Json.num n => intToChars n
  | Json.str s => printStr s
  | Json.arr [] => ['[', ']']
  | Json.arr (x :: xs) => '[' :: ((printJson x ++ printListRest xs) ++ [']'])
  | Json.obj [] => ['{', '}']
  | Json.obj (f :: fs) => '{' :: ((printField f ++ printFieldsRest fs) ++ ['}'])

/-- Later array elements, each preceded by a comma. -/
def printListRest : List Json → List Char
  | [] => []
  | x :: xs => ',' :: (printJson x ++ printListRest xs)

/-- One `"key":value` member. -/
def printField : String × Json → List Char
  | (k, v) => printStr k ++ (':' :: printJson v)

/-- Later object members, each preceded by a comma. -/
def printFieldsRest : List (String × Json) → List Char
  | [] => []
  | f :: fs => ',' :: (printField f ++ printFieldsRest fs)

end

/-- Value of one hexadecimal digit. -/
def hexVal (c : Char) : Option Nat :=
  if '0' ≤ c ∧ c ≤ '9' then some (c.toNat - 48)
  else if 'a' ≤ c ∧ c ≤ 'f' then some (c.toNat - 87)
  else if 'A' ≤ c ∧ c ≤ 'F' then some (c.toNat - 55)
  else none

/-- Body of a JSON string after the opening quote: collects characters
up to the closing quote, decoding escapes; unescaped control characters
and unterminated strings are errors.  `\uXXXX` is decoded for code
points below the surrogate range (surrogate pairs are outside this
model; the printer never emits them). -/
def parseStringChars (acc : List Char) : List Char → Option (List Char × List Char)
  | [] => none
  | c :: rest =>
    if c = '"' then some (acc, rest)
    else if c = '\\' then
      match rest with
      | [] => none
      | e :: rest' =>
        if e = '"' then parseStringChars (acc ++ ['"']) rest'
        else if e = '\\' then parseStringChars (acc ++ ['\\']) rest'
        else if e = '/' then parseStringChars (acc ++ ['/']) rest'
        else if e = 'b' then parseStringChars (acc ++ ['\x08']) rest'
        else if e = 'f' then parseStringChars (acc ++ ['\x0c']) rest'
        else if e = 'n' then parseStringChars (acc ++ ['\x0a']) rest'
        else if e = 'r' then parseStringChars (acc ++ ['\x0d']) rest'
        else if e = 't' then parseStringChars (acc ++ ['\x09']) rest'
        else if e = 'u' then
          match rest' with
          | h1 :: h2 :: h3 :: h4 :: rest2 =>
            match hexVal h1, hexVal h2, hexVal h3, hexVal h4 with
            | some a, some b, some d, some e2 =>
              let code := a * 4096 + b * 256 + d * 16 + e2
              if code < 0xD800 then
                parseStringChars (acc ++ [Char.ofNat code]) rest2
              else none
            | _, _, _, _ => none
          | _ => none
        else none
    else if c.toNat < 32 then none
    else parseStringChars (acc ++ [c]) rest
termination_by structural x => x

mutual

/-- Recursive-descent JSON value reading on the integer-number fragment,
with explicit fuel. -/
def parseValue : Nat → List Char → Option (Json × List Char)
  | 0, _ => none
  | Nat.succ fuel, cs =>
    match skipWs cs with
    | [] => none
    | c :: rest =>
      if c = 'n' then
        if "ull".toList.isPrefixOf rest then some (Json.null, rest.drop 3) else none
      else if c = 't' then
        if "rue".toList.isPrefixOf rest then some (Json.bool true, rest.drop 3) else none
      else if c = 'f' then
        if "alse".toList.isPrefixOf rest then some (Json.bool false, rest.drop 4) else none
      else if c = '"' then
        (parseStringChars [] rest).map (fun r => (Json.str (String.mk r.1), r.2))
      else if c = '-' then
        let run := rest.takeWhile Char.isDigit
        if run.isEmpty then none
        else some (Json.num (-(Int.ofNat (digitsVal run))), rest.drop run.length)
      else if c.isDigit then
        let run := (c :: rest).takeWhile Char.isDigit
        some (Json.num (Int.ofNat (digitsVal run)), (c :: rest).drop run.length)
      else if c = '[' then
        match skipWs rest with
        | ']' :: rest' => some (Json.arr [], rest')
        | cs' => parseListItems fuel cs' []
      else if c = '{' then
        match skipWs rest with
        | '}' :: rest' => some (Json.obj [], rest')
        | cs' => parseObjItems fuel cs' []
      else none

/-- Elements of a non-empty array, starting at the first element. -/
def parseListItems : Nat → List Char → List Json → Option (Json × List Char)
  | 0, _, _ => none
  | Nat.succ fuel, cs, acc =>
    match parseValue fuel cs with
    | none => none
    | some (v, rest) =>
      match skipWs rest with
      | ',' :: rest' => parseListItems fuel rest' (acc ++ [v])
      | ']' :: rest' => some (Json.arr (acc ++ [v]), rest')
      | _ => none

/-- Members of a non-empty object, starting at the first key. -/
def parseObjItems : Nat → List Char → List (String × Json) → Option (Json × List Char)
  | 0, _, _ => none
  | Nat.succ fuel, cs, acc =>
    match skipWs cs with
    | '"' :: rest =>
      match parseStringChars [] rest with
      | none => none
      | some (k, rest1) =>
        match skipWs rest1 with
        | ':' :: rest2 =>
          match parseValue fuel rest2 with
          | none => none
          | some (v, rest3) =>
            match skipWs rest3 with
            | ',' :: rest4 => parseObjItems fuel rest4 (acc ++ [(String.mk k, v)])
            | '}' :: rest4 => some (Json.obj (acc ++ [(String.mk k, v)]), rest4)
            | _ => none
        | _ => none
    | _ => none

end

mutual

/-- Fuel sufficient for `parseValue` to read one printed value: one unit
per `parseValue` entry and one per parsed element. -/
def jsonFuel : Json → Nat
  | Json.null => 1
  | Json.bool _ => 1
  | Json.num _ => 1
  | Json.str _ => 1
  | Json.arr xs => 1 + listFuel xs
  | Json.obj fs => 1 + fieldsFuel fs

/-- Fuel for the elements of an array. -/
def listFuel : List Json → Nat
  | [] => 0
  | x :: xs => jsonFuel x + 1 + listFuel xs

/-- Fuel for the members of an object. -/
def fieldsFuel : List (String × Json) → Nat
  | [] => 0
  | f :: fs => jsonFuel f.2 + 1 + fieldsFuel fs

end

/-- Serialization of an `Option<String>` field (`None` prints `null`). -/
def optStrJson : Option String → Json
  | none => Json.null
  | some s => Json.str s

/-- Serialization of an `Option<i32>`/`Option<i64>` field. -/
def optIntJson : Option Int → Json
  | none => Json.null
  | some n => Json.num n

/-- Serialization of an `Option<bool>` field. -/
def optBoolJson : Option Bool → Json
  | none => Json.null
  | some b => Json.bool b

/-- Serialization of an `Option<serde_json::Value>` field. -/
def optValJson : Option Json → Json
  | none => Json.null
  | some v => v

/-- Serde serialization of `DAPMessage`: fields in declaration order,
`message_type` renamed to `type`, `None` fields printed as `null` (the
struct has no skip attributes). -/
def DAPMessage.toJson (m : DAPMessage) : Json :=
  Json.obj
    [("seq", Json.num m.seq),
     ("type", Json.str m.message_type.toWire),
     ("command", optStrJson m.command),
     ("request_seq", optIntJson m.request_seq),
     ("success", optBoolJson m.success),
     ("body", optValJson m.body),
     ("event", optStrJson m.event),
     ("arguments", optValJson m.arguments)]

/-- Deserialization of one optional field: missing or `null` gives
`None`, a value of the wrong shape is an error. -/
def optField {α : Type} (fields : List (String × Json)) (k : String)
    (extract : Json → Option α) : Option (Option α) :=
  match List.lookup k fields with
  | none => some none
  | some Json.null => some none
  | some v => (extract v).map some

/-- Serde deserialization of `DAPMessage` from a JSON value: must be an
object, `seq` and `type` are mandatory, the remaining fields are
optional with `null` collapsing to `None` (which is why a message whose
`body` is `Some(Value::Null)` does not survive a round trip). -/
def DAPMessage.fromJson : Json → Option DAPMessage
  | Json.obj fields =>
    match (List.lookup "seq" fields).bind Json.asI64,
        ((List.lookup "type" fields).bind Json.asStr).bind MessageType.ofWire,
        optField fields "command" Json.asStr,
        optField fields "request_seq" Json.asI64,
        optField fields "success" Json.asBool,
        optField fields "body" some,
        optField fields "event" Json.asStr,
        optField fields "arguments" some with
    | some seqV, some mt, some cmd, some rseq, some succ, some bodyV,
        some ev, some args =>
      some { seq := seqV, message_type := mt, command := cmd,
             request_seq := rseq, success := succ, body := bodyV, event := ev,
             arguments := args }
    | _, _, _, _, _, _, _, _ => none
  | _ => none

/-- The four-byte header terminator. -/
def headerTerm : List Char := ['\r', '\n', '\r', '\n']

/-- Header scan of the receiver loop: read one byte at a time until the
accumulated bytes end with `\r\n\r\n`; `none` models `UnexpectedEof`
before the terminator.  Returns the header (terminator included, as
`header_bytes` holds it) and the remaining stream. -/
def splitHeader (acc : List Char) : List Char → Option (List Char × List Char)
  | [] => none
  | c :: rest =>
    let acc' := acc ++ [c]
    if headerTerm.isSuffixOf acc' then some (acc', rest)
    else splitHeader acc' rest

/-- Strip one trailing carriage return (line terminated by `\r\n`). -/
def dropTrailingCr (l : List Char) : List Char :=
  if l.getLast? = some '\r' then l.dropLast else l

/-- Worker for `rustLines`. -/
def rustLinesAux (acc : List Char) : List Char → List (List Char)
  | [] => if acc = [] then [] else [acc]
  | c :: rest =>
    if c = '\n' then dropTrailingCr acc :: rustLinesAux [] rest
    else rustLinesAux (acc ++ [c]) rest

/-- Model of `str::lines`: split at `\n`, strip the `\r` of a `\r\n`
terminator, keep a final unterminated piece as is. -/
def rustLines (cs : List Char) : List (List Char) := rustLinesAux [] cs

/-- The header-line predicate
`line.to_lowercase().starts_with("content-length:")`. -/
def lowerStartsWithContentLength (line : List Char) : Bool :=
  "content-length:".toList.isPrefixOf (line.map Char.toLower)

/-- Model of `str::trim` on the ASCII slices in play. -/
def trimChars (cs : List Char) : List Char :=
  ((cs.dropWhile isWsChar).reverse.dropWhile isWsChar).reverse

/-- Content-Length extraction of the receiver loop:
`header.lines().find(..).and_then(|line| line[15..].trim().parse().ok())`. -/
def contentLengthOf (header : List Char) : Option Nat :=
  ((rustLines header).find? lowerStartsWithContentLength).bind
    (fun line => parseNatDigits (trimChars (line.drop 15)))

/-- One frame as `send_message` writes it: exact `Content-Length`
header, blank line, body. -/
def mkFrame (body : List Char) : List Char :=
  "Content-Length: ".toList ++ natToDigits body.length ++ headerTerm ++ body

/-- Encoding of a message: serialize, prefix the header. -/
def encodeMessage (m : DAPMessage) : List Char := mkFrame (printJson m.toJson)

/-- Model of `serde_json::from_str::<DAPMessage>` on a frame body: parse
one JSON value, require only whitespace after it, deserialize. -/
def decodeDAPBody (body : List Char) : Option DAPMessage :=
  match parseValue (body.length + 1) body with
  | some (j, rest) => if skipWs rest = [] then DAPMessage.fromJson j else none
  | none => none

/-- Decoding of one frame from the stream, as the receiver loop frames
it: header scan, Content-Length extraction, exact body read, JSON
parse.  Returns the message and the unconsumed remainder. -/
def decodeMessage (cs : List Char) : Option (DAPMessage × List Char) :=
  match splitHeader [] cs with
  | none => none
  | some (header, rest) =>
    match contentLengthOf header with
    | none => none
    | some len =>
      if rest.length < len then none
      else (decodeDAPBody (rest.take len)).map (fun m => (m, rest.drop len))

/-- The receiver loop of `start_receiver` (`debugger/client.rs`, lines
359-511) over a finite input stream.  Per cycle: header scan (EOF exits
cleanly), Content-Length extraction (a header without one is logged and
the loop continues), exact body read (EOF exits), body parse (a body
that does not parse as a `DAPMessage` is logged and skipped), then
`process_message`.  `loc` is the lookup oracle passed through to the
status emissions; `fuel` bounds the iteration count (each cycle consumes
at least the four terminator bytes, so `cs.length + 1` is always
enough).  Returns the final shared state and the emissions in order. -/
def receiverRun : Nat → ReceiverState → Option (String × Int) →
    List Char → ReceiverState × List UiEvent
  | 0, st, _, _ => (st, [])
  | Nat.succ fuel, st, loc, cs =>
    match splitHeader [] cs with
    | none => (st, [])
    | some (header, rest) =>
      match contentLengthOf header with
      | none => receiverRun fuel st loc rest
      | some len =>
        if rest.length < len then (st, [])
        else
          match decodeDAPBody (rest.take len) with
          | none => receiverRun fuel st loc (rest.drop len)
          | some msg =>
            let r := process_message st loc msg
            let r2 := receiverRun fuel r.1 loc (rest.drop len)
            (r2.1, r.2 ++ r2.2)

/-- Messages used in concrete scenarios: an event frame with the given
name and body. -/
def eventMsg (name : String) (body : Option Json) : DAPMessage :=
  { seq := 0, message_type := MessageType.Event, command := none,
    request_seq := none, success := none, body := body, event := some name,
    arguments := none }

/-! ### LLDB result parsing (`debugger/util.rs`, lines 23-42)

`parse_lldb_result` applies two regular expressions and a trim.  The
patterns are fixed, so they are transcribed as backtracking matchers
with the regex crate's semantics on the classes in play: leftmost match,
greedy quantifiers with backtracking, `.` excluding `\n`. -/

/-- Class `\w` (ASCII fragment). -/
def isWordChar (c : Char) : Bool := c.isAlphanum || c = '_'

/-- Class `\s`. -/
def isRegexSpace (c : Char) : Bool :=
  c = ' ' || c = '\t' || c = '\n' || c = '\r' || c = '\x0b' || c = '\x0c'

/-- Class `.` (anything but a newline). -/
def isDotChar (c : Char) : Bool := c != '\n'

/-- Backtracking over the candidate lengths of a greedy `X*`: try the
continuation after dropping `i` characters, longest first, down to 0. -/
def tryDropsStar {α : Type} (k : List Char → Option α) (cs : List Char) :
    Nat → Option α
  | 0 => k cs
  | Nat.succ i =>
    match k (cs.drop (Nat.succ i)) with
    | some a => some a
    | none => tryDropsStar k cs i

/-- Backtracking over the candidate lengths of a greedy `X+`: longest
first, down to 1. -/
def tryDropsPlus {α : Type} (k : List Char → Option α) (cs : List Char) :
    Nat → Option α
  | 0 => none
  | Nat.succ i =>
    match k (cs.drop (Nat.succ i)) with
    | some a => some a
    | none => tryDropsPlus k cs i

/-- Greedy `p*` then continuation. -/
def starGreedy {α : Type} (p : Char → Bool) (k : List Char → Option α)
    (cs : List Char) : Option α :=
  tryDropsStar k cs (cs.takeWhile p).length

/-- Greedy `p+` then continuation. -/
def plusGreedy {α : Type} (p : Char → Bool) (k : List Char → Option α)
    (cs : List Char) : Option α :=
  tryDropsPlus k cs (cs.takeWhile p).length

/-- Literal character then continuation. -/
def expectChar {α : Type} (c : Char) (k : List Char → Option α) :
    List Char → Option α
  | [] => none
  | x :: rest => if x = c then k rest else none

/-- Literal string then continuation. -/
def expectStr {α : Type} (pre : List Char) (k : List Char → Option α)
    (cs : List Char) : Option α :=
  if pre.isPrefixOf cs then k (cs.drop pre.length) else none

/-- The shared tail `\(\w+\)\s+\$\d+\s+=\s+(.+)` of both patterns; the
result is the text matched by the final greedy capture group. -/
def lldbValuePattern (cs : List Char) : Option (List Char) :=
  expectChar '('
    (plusGreedy isWordChar
      (expectChar ')'
        (plusGreedy isRegexSpace
          (expectChar '$'
            (plusGreedy Char.isDigit
              (plusGreedy isRegexSpace
                (expectChar '='
                  (plusGreedy isRegexSpace
                    (fun tail =>
                      let cap := tail.takeWhile isDotChar
                      if cap.isEmpty then none else some cap))))))))) cs

/-- Pattern 1 of `parse_lldb_result`:
`\(lldb\).*\n\(\w+\)\s+\$\d+\s+=\s+(.+)`. -/
def lldbPattern1 (cs : List Char) : Option (List Char) :=
  expectStr "(lldb)".toList
    (starGreedy isDotChar (expectChar '\n' lldbValuePattern)) cs

/-- Leftmost-match search (`Regex::captures` tries successive start
positions). -/
def regexFind (m : List Char → Option (List Char)) :
    List Char → Option (List Char)
  | [] => m []
  | c :: rest =>
    match m (c :: rest) with
    | some r => some r
    | none => regexFind m rest

/-- Model of `parse_lldb_result`: pattern 1, then pattern 2, then the
trimmed input unchanged; a successful capture is trimmed. -/
def parse_lldb_result (result : String) : String :=
  match regexFind lldbPattern1 result.toList with
  | some cap => String.mk (trimChars cap)
  | none =>
    match regexFind lldbValuePattern result.toList with
    | some cap => String.mk (trimChars cap)
    | none => String.mk (trimChars result.toList)

/-! ### Concrete messages for the scenarios -/

/-- An inbound `terminated` event. -/
def terminatedEventMsg : DAPMessage := eventMsg "terminated" none

/-- An inbound `continued` event. -/
def continuedEventMsg : DAPMessage := eventMsg "continued" none

/-- A `stopped` event that carries no body. -/
def stoppedNoBodyMsg : DAPMessage := eventMsg "stopped" none

/-- A `stopped` event with reason and thread id. -/
def stoppedMsg : DAPMessage :=
  eventMsg "stopped"
    (some (Json.obj [("reason", Json.str "breakpoint"), ("threadId", Json.num 1)]))

/-- A response whose `request_seq` matches no outstanding request. -/
def orphanResponseMsg : DAPMessage :=
  { seq := 7, message_type := MessageType.Response, command := some "evaluate",
    request_seq := some 999, success := some true, body := none, event := none,
    arguments := none }

/-- A message whose `body` is the explicit JSON `null` value. -/
def nullBodyMsg : DAPMessage :=
  { seq := 1, message_type := MessageType.Request, command := some "pause",
    request_seq := none, success := none, body := some Json.null, event := none,
    arguments := none }

/-- A receiver state for the concrete scenarios. -/
def sampleState : ReceiverState :=
  { responses := [], events := [], debugState := DebuggerState.Running,
    statusSeq := 5 }

/-- Events named `initialized`, `continued`, or `stopped`-with-a-body
are exactly the messages on which `handle_dap_event` can move the state
record out of `Terminated`. -/
def stateChangingEvent (m : DAPMessage) : Prop :=
  m.message_type = MessageType.Event ∧
    (m.event = some "initialized" ∨ m.event = some "continued" ∨
      (m.event = some "stopped" ∧ m.body.isSome = true))

instance (m : DAPMessage) : Decidable (stateChangingEvent m) := by
  unfold stateChangingEvent
  infer_instance

/-! ### Helper lemmas -/

theorem handle_dap_event_terminated_fixed (m : DAPMessage)
    (h : ¬ stateChangingEvent m) :
    handle_dap_event DebuggerState.Terminated m = DebuggerState.Terminated := by
  unfold handle_dap_event
  by_cases ht : m.message_type = MessageType.Event
  · rw [if_pos ht]
    cases hev : m.event with
    | none => rfl
    | some name =>
      by_cases h1 : name = "initialized"
      · exact absurd ⟨ht, Or.inl (by rw [hev, h1])⟩ h
      · by_cases h2 : name = "continued"
        · exact absurd ⟨ht, Or.inr (Or.inl (by rw [hev, h2]))⟩ h
        · by_cases h3 : name = "stopped"
          · cases hb : m.body with
            | none => simp [h1, h2, h3, hb]
            | some b =>
              exact absurd ⟨ht, Or.inr (Or.inr ⟨by rw [hev, h3], by rw [hb]; rfl⟩)⟩ h
          · by_cases h4 : name = "terminated" <;> simp [h1, h2, h3, h4]
  · rw [if_neg ht]

theorem sendRun_bounded (c : Int) (n : Nat) :
    ∀ x ∈ sendRun c n, c ≤ x := by
  induction n generalizing c with
  | zero => intro x hx; simp [sendRun] at hx
  | succ n ih =>
    intro x hx
    simp only [sendRun, send_message, List.mem_cons] at hx
    rcases hx with hx | hx
    · omega
    · have := ih (c + 1) x hx
      omega

theorem sendRun_pairwise (c : Int) (n : Nat) :
    List.Pairwise (· < ·) (sendRun c n) := by
  induction n generalizing c with
  | zero => simp [sendRun]
  | succ n ih =>
    simp only [sendRun, send_message, List.pairwise_cons]
    exact ⟨fun x hx => by have := sendRun_bounded (c + 1) n x hx; omega, ih (c + 1)⟩

theorem sendRun_eq (c : Int) (n : Nat) :
    sendRun c n = (List.range n).map (fun i : Nat => c + (i : Int)) := by
  induction n generalizing c with
  | zero => rfl
  | succ n ih =>
    simp only [sendRun, send_message, List.range_succ_eq_map, List.map_cons,
      List.map_map]
    congr 1
    · simp
    · rw [ih (c + 1)]
      apply List.map_congr_left
      intro i _
      simp only [Function.comp_apply]
      push_cast
      ring

theorem emit_seq_eq (c : Nat) (s : String) (t : Option Int)
    (l : Option (String × Int)) :
    (emit_status_update c s t l).payload.seq = c ∧
      (emit_status_update c s t l).nextSeq = c + 1 := by
  cases t <;> by_cases hs : s = "paused" <;> simp [emit_status_update, hs]

theorem emitRun_seq_bounded (c : Nat) (args : List EmitArgs) :
    ∀ x ∈ (emitRun c args).map StatusPayload.seq, c ≤ x := by
  induction args generalizing c with
  | nil => intro x hx; simp [emitRun] at hx
  | cons a rest ih =>
    intro x hx
    simp only [emitRun, List.map_cons, List.mem_cons] at hx
    rcases hx with hx | hx
    · rw [hx, (emit_seq_eq c a.1 a.2.1 a.2.2).1]
    · rw [(emit_seq_eq c a.1 a.2.1 a.2.2).2] at hx
      have := ih (c + 1) x hx
      omega

theorem emitRun_seq_pairwise (c : Nat) (args : List EmitArgs) :
    List.Pairwise (· < ·) ((emitRun c args).map StatusPayload.seq) := by
  induction args generalizing c with
  | nil => simp [emitRun]
  | cons a rest ih =>
    simp only [emitRun, List.map_cons, List.pairwise_cons]
    refine ⟨fun x hx => ?_, ?_⟩
    · rw [(emit_seq_eq c a.1 a.2.1 a.2.2).1]
      rw [(emit_seq_eq c a.1 a.2.1 a.2.2).2] at hx
      have := emitRun_seq_bounded (c + 1) rest x hx
      omega
    · rw [(emit_seq_eq c a.1 a.2.1 a.2.2).2]
      exact ih (c + 1)

theorem wait_delivers (k : Int) (v : DAPMessage) (rs : List (Int × DAPMessage)) :
    (wait_for_response (insertAssoc k v rs) k).1 = some v := by
  unfold wait_for_response
  induction rs with
  | nil => simp [insertAssoc, removeAssoc]
  | cons p rest ih =>
    obtain ⟨k', v'⟩ := p
    by_cases hk : k' = k <;> simp [insertAssoc, removeAssoc, hk, ih]

/-! ### Claimed properties -/

/-- C1 (counterexample): `handle_dap_event` has no terminal guard — after
a `terminated` event has set the state record to `Terminated`, processing
a later `continued` event moves it to `Running`, so the state does not
remain `Terminated` for all later messages. -/
theorem terminated_not_terminal_counterexample :
    handle_dap_event (handle_dap_event DebuggerState.NotStarted terminatedEventMsg)
        continuedEventMsg = DebuggerState.Running
    ∧ DebuggerState.Running ≠ DebuggerState.Terminated :=
  ⟨rfl, by decide⟩

/-- C1 (amended): once the state record is `Terminated`, it remains
`Terminated` across every later message processed by `handle_dap_event`
that is not an event named `initialized` or `continued`, nor a `stopped`
event carrying a body; `handle_dap_event` applies those transitions
unconditionally, so only such an event can move the state out of
`Terminated`. -/
theorem terminated_persists_without_state_events (ms : List DAPMessage)
    (h : ∀ m ∈ ms, ¬ stateChangingEvent m) :
    ms.foldl handle_dap_event DebuggerState.Terminated = DebuggerState.Terminated := by
  induction ms with
  | nil => rfl
  | cons m ms ih =>
    simp only [List.foldl_cons]
    rw [handle_dap_event_terminated_fixed m (h m (by simp))]
    exact ih (fun m' hm' => h m' (by simp [hm']))

/-- Witness for the amended C1 at a concrete message sequence. -/
theorem terminated_persists_witness :
    (∀ m ∈ [orphanResponseMsg, terminatedEventMsg], ¬ stateChangingEvent m)
    ∧ [orphanResponseMsg, terminatedEventMsg].foldl handle_dap_event
        DebuggerState.Terminated = DebuggerState.Terminated :=
  ⟨by decide, terminated_persists_without_state_events _ (by decide)⟩

/-- C2: outbound request seqs are assigned by read-and-increment from a
counter that starts at `1` (so the run of assigned values is
`1, 2, 3, ...`, strictly increasing in send order, with the assigned
value returned), and the `seq` values stamped on successive
`debug-status` emissions by `emit_status_update` are strictly
increasing. -/
theorem seq_values_strictly_increasing :
    ∀ (n : Nat) (c : Nat) (args : List EmitArgs),
      sendRun initialNextSeq n = (List.range n).map (fun i : Nat => 1 + (i : Int))
      ∧ List.Pairwise (· < ·) (sendRun initialNextSeq n)
      ∧ List.Pairwise (· < ·) ((emitRun c args).map StatusPayload.seq) :=
  fun n c args =>
    ⟨sendRun_eq initialNextSeq n, sendRun_pairwise initialNextSeq n,
      emitRun_seq_pairwise c args⟩

/-- C3 (counterexample): a `stopped` event that carries no body is
processed by the receiver without emitting any `debug-status` message —
the paused emission is skipped, contradicting the claim that it happens
for every inbound `stopped` event. -/
theorem stopped_without_body_emits_nothing :
    stoppedNoBodyMsg.message_type = MessageType.Event
    ∧ stoppedNoBodyMsg.event = some "stopped"
    ∧ stoppedNoBodyMsg.body = none
    ∧ (process_message sampleState (some ("/a.py", 25)) stoppedNoBodyMsg).2 = [] :=
  ⟨rfl, rfl, rfl, rfl⟩

/-- C3 (amended): for every inbound `stopped` event that carries a body,
exactly one `debug-status` message with status `"paused"` is emitted; its
`threadId` field is the integer `threadId` of the body when present (and
absent otherwise), and is the same for every outcome `loc` of the
best-effort location enrichment — the enrichment never changes the
`threadId` and never suppresses the emission. -/
theorem stopped_with_body_emits_one_paused (st : ReceiverState)
    (loc : Option (String × Int)) (msg : DAPMessage) (body : Json)
    (ht : msg.message_type = MessageType.Event)
    (he : msg.event = some "stopped") (hb : msg.body = some body) :
    (process_message st loc msg).2 =
      [UiEvent.debugStatus
        { status := "paused", seq := st.statusSeq,
          threadId := (body.get "threadId").bind Json.asI64,
          location :=
            match (body.get "threadId").bind Json.asI64 with
            | some _ => loc
            | none => none }] := by
  simp only [process_message, ht, he, hb]
  cases htid : (body.get "threadId").bind Json.asI64 <;>
    simp [emit_status_update, htid]

/-- Witness for the amended C3 at a concrete stopped event. -/
theorem stopped_with_body_witness :
    (process_message sampleState (some ("/a.py", 25)) stoppedMsg).2 =
      [UiEvent.debugStatus
        { status := "paused", seq := 5, threadId := some 1,
          location := some ("/a.py", 25) }] := by
  rw [stopped_with_body_emits_one_paused sampleState (some ("/a.py", 25)) stoppedMsg
    (Json.obj [("reason", Json.str "breakpoint"), ("threadId", Json.num 1)])
    rfl rfl rfl]
  rfl

/-- C4 (counterexample): a response whose `request_seq` matches no
outstanding request is not dropped without effect — the receiver inserts
it into the responses correlation table unconditionally.  Here the
session has sent no requests (the set of assigned seqs is empty), yet
processing a response with `request_seq = 999` changes the table. -/
theorem orphan_response_mutates_table :
    orphanResponseMsg.request_seq = some 999
    ∧ sendRun initialNextSeq 0 = []
    ∧ sampleState.responses = []
    ∧ (process_message sampleState none orphanResponseMsg).1.responses =
        [(999, orphanResponseMsg)] :=
  ⟨rfl, rfl, rfl, rfl⟩

/-- C4 (amended): the receiver inserts every response that carries a
`request_seq` into the responses table at that key, whether or not an
outstanding request matches, and emits nothing and leaves the state
record alone; a response without a `request_seq` is dropped with no
effect at all; `wait_for_response` removes and returns the entry under
the awaited seq, so a response is delivered to the (at most one) waiter
that sent the matching request. -/
theorem response_dispatch (st : ReceiverState) (loc : Option (String × Int))
    (msg : DAPMessage) (ht : msg.message_type = MessageType.Response) :
    (∀ k, msg.request_seq = some k →
        process_message st loc msg =
          ({ st with responses := insertAssoc k msg st.responses }, []))
    ∧ (msg.request_seq = none → process_message st loc msg = (st, []))
    ∧ (∀ (k : Int) (v : DAPMessage) (rs : List (Int × DAPMessage)),
        (wait_for_response (insertAssoc k v rs) k).1 = some v) := by
  refine ⟨?_, ?_, fun k v rs => wait_delivers k v rs⟩
  · intro k hk
    cases st
    simp [process_message, ht, hk, handle_dap_event]
  · intro hk
    cases st
    simp [process_message, ht, hk, handle_dap_event]

/-- Witness for the amended C4 at a concrete response frame. -/
theorem response_dispatch_witness :
    process_message sampleState none orphanResponseMsg =
      ({ sampleState with
          responses := insertAssoc 999 orphanResponseMsg sampleState.responses },
        []) :=
  (response_dispatch sampleState none orphanResponseMsg rfl).1 999 rfl

/-- C6 (counterexample): the location lookup request is not stamped with
a client-assigned seq: `get_stack_trace_sync` hardcodes `seq = 10000`
regardless of the session, while the seqs the session client assigns (a
session that has sent three requests, say) are `1, 2, 3` — `10000` is
never among them, and the lookup leaves the client counter untouched. -/
theorem stack_trace_sync_seq_fixed :
    (stackTraceSyncRequest 1).seq = 10000
    ∧ (10000 : Int) ∉ sendRun initialNextSeq 3
    ∧ (stackTraceSyncRequest 99).seq = 10000 :=
  ⟨rfl, by decide, rfl⟩

/-- C6 (amended): the enrichment issues `stackTrace(thread_id, 0, 1)`,
but over a freshly opened TCP connection to a hardcoded port (5678, then
9123) with the fixed seq `10000`, not through the session's client or
transport; when the request fails or times out (the oracle is `none`),
the paused status is still emitted, without `file` and `line` fields. -/
theorem stack_trace_sync_request_shape :
    ∀ (tid : Int) (c : Nat),
      (stackTraceSyncRequest tid).command = some "stackTrace"
      ∧ (stackTraceSyncRequest tid).message_type = MessageType.Request
      ∧ (stackTraceSyncRequest tid).arguments =
          some (Json.obj [("threadId", Json.num tid), ("startFrame", Json.num 0),
            ("levels", Json.num 1)])
      ∧ (stackTraceSyncRequest tid).seq = 10000
      ∧ stackTraceSyncPorts = [5678, 9123]
      ∧ (emit_status_update c "paused" (some tid) none).payload =
          { status := "paused", seq := c, threadId := some tid, location := none } :=
  fun tid c => ⟨rfl, rfl, rfl, rfl, rfl, by simp [emit_status_update]⟩

/-- C8: a step command (`step_in` or `step_over`) issued when no current
thread id is recorded fails with the precondition error and produces no
DAP frame; when a current thread id exists it is substituted into the
step request's `threadId` argument. -/
theorem step_commands_require_current_thread :
    ∀ (g : Option String) (tid : Int),
      step_in true none g =
        Except.error "No current thread id available; debugger is not paused."
      ∧ step_over true none =
        Except.error "No current thread id available; debugger is not paused."
      ∧ step_in true (some tid) g = Except.ok (step_in_request tid g)
      ∧ step_over true (some tid) = Except.ok (next_request tid)
      ∧ ((step_in_request tid g).arguments.bind
          (fun a => (a.get "threadId").bind Json.asI64)) = some tid
      ∧ ((next_request tid).arguments.bind
          (fun a => (a.get "threadId").bind Json.asI64)) = some tid := by
  intro g tid
  refine ⟨rfl, rfl, rfl, rfl, ?_, rfl⟩
  cases g <;> rfl

/-- C10: for every `emit_status_update` call with a status other than
`"paused"`, the emitted payload carries exactly the `status`, `seq` and
(when supplied) `threadId` fields and never `file`/`line`; and the
stack-trace location lookup runs only when the status is exactly
`"paused"` and a thread id is present. -/
theorem non_paused_payload_has_no_location (c : Nat) (status : String)
    (tid : Option Int) (loc : Option (String × Int)) (h : status ≠ "paused") :
    emit_status_update c status tid loc =
      { payload := { status := status, seq := c, threadId := tid, location := none },
        nextSeq := c + 1, lookedUp := false }
    ∧ (∀ (c' : Nat) (s' : String) (t' : Option Int) (l' : Option (String × Int)),
        (emit_status_update c' s' t' l').lookedUp = true →
          s' = "paused" ∧ t'.isSome = true) := by
  constructor
  · cases tid <;> simp [emit_status_update, h]
  · intro c' s' t' l' hl
    cases t' with
    | none => simp [emit_status_update] at hl
    | some t =>
      by_cases hs : s' = "paused"
      · exact ⟨hs, rfl⟩
      · simp [emit_status_update, hs] at hl

/-- Witness for C10 at a concrete non-paused emission. -/
theorem non_paused_payload_witness :
    emit_status_update 0 "running" (some 1) none =
      { payload :=
          { status := "running", seq := 0, threadId := some 1, location := none },
        nextSeq := 1, lookedUp := false } :=
  (non_paused_payload_has_no_location 0 "running" (some 1) none (by decide)).1

/-! ### Codec lemmas: decimal digits and header framing -/

theorem digit_not_lit (c : Char) (hc : c.isDigit = true) (d : Char)
    (hd : d.isDigit = false) : c ≠ d := by
  intro h
  rw [h, hd] at hc
  exact Bool.noConfusion hc

theorem digit_not_ws (c : Char) (hc : c.isDigit = true) : isWsChar c = false := by
  have h1 := digit_not_lit c hc ' ' (by decide)
  have h2 := digit_not_lit c hc '\t' (by decide)
  have h3 := digit_not_lit c hc '\n' (by decide)
  have h4 := digit_not_lit c hc '\r' (by decide)
  simp [isWsChar, h1, h2, h3, h4]

theorem takeWhile_append_all (p : Char → Bool) (l₁ l₂ : List Char)
    (h₁ : ∀ c ∈ l₁, p c = true)
    (h₂ : ∀ c t, l₂ = c :: t → p c = false) :
    (l₁ ++ l₂).takeWhile p = l₁ ∧ (l₁ ++ l₂).dropWhile p = l₂ := by
  induction l₁ with
  | nil =>
    cases l₂ with
    | nil => exact ⟨rfl, rfl⟩
    | cons c t =>
      simp [List.takeWhile_cons, List.dropWhile_cons, h₂ c t rfl]
  | cons c l₁ ih =>
    have hc := h₁ c (by simp)
    have := ih (fun d hd => h₁ d (by simp [hd]))
    simp [List.takeWhile_cons, List.dropWhile_cons, hc, this.1, this.2]

theorem dropWhile_all_false (p : Char → Bool) (l : List Char)
    (h : ∀ c ∈ l, p c = false) : l.dropWhile p = l := by
  cases l with
  | nil => rfl
  | cons c t => simp [List.dropWhile_cons, h c (by simp)]

theorem trimChars_all_not_ws (l : List Char)
    (h : ∀ c ∈ l, isWsChar c = false) : trimChars l = l := by
  unfold trimChars
  rw [dropWhile_all_false _ _ h,
    dropWhile_all_false _ _ (fun c hc => h c (List.mem_reverse.mp hc)),
    List.reverse_reverse]

theorem natToDigitsAux_ne_nil (fuel : Nat) :
    ∀ n, n < fuel → natToDigitsAux fuel n ≠ [] := by
  induction fuel with
  | zero => intro n hn; omega
  | succ fuel ih =>
    intro n _
    rw [natToDigitsAux]
    split <;> simp

theorem natToDigits_ne_nil (n : Nat) : natToDigits n ≠ [] :=
  natToDigitsAux_ne_nil (n + 1) n (by omega)

theorem digitChar_isDigit (d : Nat) (h : d < 10) :
    (Nat.digitChar d).isDigit = true := by
  interval_cases d <;> decide

theorem digitChar_val (d : Nat) (h : d < 10) :
    (Nat.digitChar d).toNat - 48 = d := by
  interval_cases d <;> decide

theorem natToDigitsAux_digits (fuel : Nat) :
    ∀ n, n < fuel → ∀ c ∈ natToDigitsAux fuel n, c.isDigit = true := by
  induction fuel with
  | zero => intro n hn; omega
  | succ fuel ih =>
    intro n hn c hc
    rw [natToDigitsAux] at hc
    by_cases h : n < 10
    · rw [if_pos h] at hc
      simp at hc
      rw [hc]
      exact digitChar_isDigit n h
    · rw [if_neg h] at hc
      rcases List.mem_append.mp hc with hc | hc
      · have hlt : n / 10 < fuel := by
          have hd : n / 10 < n := Nat.div_lt_self (by omega) (by omega)
          omega
        exact ih (n / 10) hlt c hc
      · simp at hc
        rw [hc]
        exact digitChar_isDigit _ (Nat.mod_lt _ (by omega))

theorem natToDigits_digits (n : Nat) :
    ∀ c ∈ natToDigits n, c.isDigit = true :=
  natToDigitsAux_digits (n + 1) n (by omega)

theorem foldl_natToDigitsAux (fuel : Nat) :
    ∀ n, n < fuel → ∀ acc,
      (natToDigitsAux fuel n).foldl (fun a c => 10 * a + (c.toNat - 48)) acc =
        acc * 10 ^ (natToDigitsAux fuel n).length + n := by
  induction fuel with
  | zero => intro n hn; omega
  | succ fuel ih =>
    intro n hn acc
    rw [natToDigitsAux]
    by_cases h : n < 10
    · rw [if_pos h]
      simp [List.foldl, digitChar_val n h]
      ring
    · rw [if_neg h]
      have hlt : n / 10 < fuel := by
        have hd : n / 10 < n := Nat.div_lt_self (by omega) (by omega)
        omega
      rw [List.foldl_append, ih (n / 10) hlt acc]
      simp only [List.foldl, List.length_append, List.length_cons,
        List.length_nil]
      rw [digitChar_val _ (Nat.mod_lt _ (by omega))]
      have hm := Nat.div_add_mod n 10
      rw [Nat.pow_succ]
      rw [show acc * (10 ^ (natToDigitsAux fuel (n / 10)).length * 10) =
        acc * 10 ^ (natToDigitsAux fuel (n / 10)).length * 10 from by ring]
      generalize acc * 10 ^ (natToDigitsAux fuel (n / 10)).length = A
      omega

theorem foldl_natToDigits (n : Nat) :
    ∀ acc, (natToDigits n).foldl (fun a c => 10 * a + (c.toNat - 48)) acc =
      acc * 10 ^ (natToDigits n).length + n :=
  foldl_natToDigitsAux (n + 1) n (by omega)

theorem digitsVal_natToDigits (n : Nat) : digitsVal (natToDigits n) = n := by
  unfold digitsVal
  rw [foldl_natToDigits n 0]
  simp

theorem parseNatDigits_natToDigits (n : Nat) :
    parseNatDigits (natToDigits n) = some n := by
  unfold parseNatDigits
  rw [if_pos ⟨natToDigits_ne_nil n, List.all_eq_true.mpr (natToDigits_digits n)⟩,
    digitsVal_natToDigits]

theorem term_suffix_shape (l : List Char)
    (h : headerTerm.isSuffixOf l = true) : ∃ t, l = t ++ headerTerm := by
  rw [List.isSuffixOf_iff_suffix] at h
  obtain ⟨t, ht⟩ := h
  exact ⟨t, ht.symm⟩

theorem not_term_suffix_last (l : List Char) (c : Char) (hc : c ≠ '\n') :
    headerTerm.isSuffixOf (l ++ [c]) = false := by
  rw [Bool.eq_false_iff]
  intro hs
  obtain ⟨t, ht⟩ := term_suffix_shape _ hs
  rw [show headerTerm = ['\r', '\n', '\r'] ++ ['\n'] from rfl,
    ← List.append_assoc] at ht
  obtain ⟨-, h2⟩ := List.append_inj' ht rfl
  exact hc (List.cons_eq_cons.mp h2).1

theorem not_term_suffix_no_cr (l : List Char) (c : Char) (hl : '\r' ∉ l) :
    headerTerm.isSuffixOf (l ++ [c]) = false := by
  rw [Bool.eq_false_iff]
  intro hs
  obtain ⟨t, ht⟩ := term_suffix_shape _ hs
  rw [show headerTerm = ['\r', '\n', '\r'] ++ ['\n'] from rfl,
    ← List.append_assoc] at ht
  obtain ⟨h1, -⟩ := List.append_inj' ht rfl
  exact hl (by rw [h1]; simp)

theorem not_term_suffix_two (l : List Char) (hl : '\r' ∉ l) :
    headerTerm.isSuffixOf (l ++ ['\r', '\n']) = false := by
  rw [Bool.eq_false_iff]
  intro hs
  obtain ⟨t, ht⟩ := term_suffix_shape _ hs
  rw [show headerTerm = ['\r', '\n'] ++ ['\r', '\n'] from rfl,
    ← List.append_assoc] at ht
  obtain ⟨h1, -⟩ := List.append_inj' ht rfl
  exact hl (by rw [h1]; simp)

theorem term_suffix_self (l : List Char) :
    headerTerm.isSuffixOf (l ++ headerTerm) = true := by
  rw [List.isSuffixOf_iff_suffix]
  exact ⟨l, rfl⟩

theorem splitHeader_append (h rest : List Char) :
    ∀ acc, '\r' ∉ acc → '\r' ∉ h →
      splitHeader acc (h ++ (headerTerm ++ rest)) =
        some ((acc ++ h) ++ headerTerm, rest) := by
  induction h with
  | nil =>
    intro acc hacc _
    have hs1 : headerTerm.isSuffixOf (acc ++ ['\r']) = false :=
      not_term_suffix_last acc '\r' (by decide)
    have hs2 : headerTerm.isSuffixOf ((acc ++ ['\r']) ++ ['\n']) = false := by
      rw [show (acc ++ ['\r']) ++ ['\n'] = acc ++ ['\r', '\n'] from by simp]
      exact not_term_suffix_two acc hacc
    have hs3 :
        headerTerm.isSuffixOf (((acc ++ ['\r']) ++ ['\n']) ++ ['\r']) = false :=
      not_term_suffix_last _ '\r' (by decide)
    have hs4 : headerTerm.isSuffixOf
        ((((acc ++ ['\r']) ++ ['\n']) ++ ['\r']) ++ ['\n']) = true := by
      rw [show (((acc ++ ['\r']) ++ ['\n']) ++ ['\r']) ++ ['\n'] =
        acc ++ headerTerm from by simp [headerTerm]]
      exact term_suffix_self acc
    show splitHeader acc ('\r' :: '\n' :: '\r' :: '\n' :: rest) = _
    simp only [splitHeader, hs1, hs2, hs3, hs4, Bool.false_eq_true, if_false,
      if_true]
    simp [headerTerm]
  | cons c h ih =>
    intro acc hacc hch
    have hc : c ≠ '\r' := fun hcc => hch (by simp [hcc])
    have hnos : headerTerm.isSuffixOf (acc ++ [c]) = false :=
      not_term_suffix_no_cr acc c hacc
    have hacc' : '\r' ∉ acc ++ [c] := by
      intro hmem
      rcases List.mem_append.mp hmem with hm | hm
      · exact hacc hm
      · simp at hm
        exact hc hm.symm
    have hh' : '\r' ∉ h := fun hr => hch (List.mem_cons_of_mem c hr)
    show splitHeader acc (c :: (h ++ (headerTerm ++ rest))) = _
    simp only [splitHeader, hnos, Bool.false_eq_true, if_false]
    rw [ih (acc ++ [c]) hacc' hh']
    simp

theorem not_mem_natToDigits (n : Nat) (c : Char) (hc : c.isDigit = false) :
    c ∉ natToDigits n := by
  intro hm
  have := natToDigits_digits n c hm
  rw [hc] at this
  exact Bool.noConfusion this

theorem isPrefixOf_append_self (l t : List Char) : l.isPrefixOf (l ++ t) = true := by
  induction l with
  | nil => simp [List.isPrefixOf]
  | cons c l ih => simp [List.isPrefixOf, ih]

theorem rustLinesAux_no_nl (h rest : List Char) :
    ∀ acc, (∀ c ∈ h, c ≠ '\n') →
      rustLinesAux acc (h ++ '\n' :: rest) =
        dropTrailingCr (acc ++ h) :: rustLinesAux [] rest := by
  induction h with
  | nil =>
    intro acc _
    show rustLinesAux acc ('\n' :: rest) = _
    simp [rustLinesAux]
  | cons c h ih =>
    intro acc hch
    have hc : ¬ (c = '\n') := hch c (by simp)
    show rustLinesAux acc (c :: (h ++ '\n' :: rest)) = _
    simp only [rustLinesAux, hc, if_false]
    rw [ih (acc ++ [c]) (fun d hd => hch d (by simp [hd]))]
    simp

theorem contentLengthOf_header (n : Nat) :
    contentLengthOf (("Content-Length: ".toList ++ natToDigits n) ++ headerTerm) =
      some n := by
  have hnl : ∀ c ∈ ("Content-Length: ".toList ++ natToDigits n) ++ ['\r'],
      c ≠ '\n' := by
    intro c hc
    rcases List.mem_append.mp hc with hc | hc
    · rcases List.mem_append.mp hc with hc | hc
      · intro he
        rw [he] at hc
        revert hc
        decide
      · intro he
        rw [he] at hc
        exact not_mem_natToDigits n '\n' (by decide) hc
    · simp at hc
      rw [hc]
      decide
  have hshape : ("Content-Length: ".toList ++ natToDigits n) ++ headerTerm =
      (("Content-Length: ".toList ++ natToDigits n) ++ ['\r']) ++
        '\n' :: ('\r' :: '\n' :: []) := by
    simp [headerTerm]
  unfold contentLengthOf rustLines
  rw [hshape, rustLinesAux_no_nl _ _ [] hnl,
    show (['\r', '\n'] : List Char) = ['\r'] ++ '\n' :: [] from rfl,
    rustLinesAux_no_nl ['\r'] [] [] (by decide)]
  have hone : rustLinesAux [] ([] : List Char) = [] := rfl
  rw [hone]
  have hdrop1 : dropTrailingCr ([] ++ ['\r']) = [] := by decide
  rw [hdrop1]
  have hdrop2 : dropTrailingCr ([] ++ (("Content-Length: ".toList ++ natToDigits n) ++ ['\r'])) =
      "Content-Length: ".toList ++ natToDigits n := by
    rw [List.nil_append]
    unfold dropTrailingCr
    rw [List.getLast?_concat, if_pos rfl, List.dropLast_concat]
  rw [hdrop2]
  have hfind : lowerStartsWithContentLength
      ("Content-Length: ".toList ++ natToDigits n) = true := by
    unfold lowerStartsWithContentLength
    rw [List.map_append]
    rw [show List.map Char.toLower "Content-Length: ".toList =
      "content-length:".toList ++ [' '] from rfl, List.append_assoc]
    exact isPrefixOf_append_self _ _
  rw [List.find?_cons_of_pos _ hfind]
  simp only [Option.bind_eq_bind, Option.some_bind]
  rw [show "Content-Length: ".toList ++ natToDigits n =
    "Content-Length:".toList ++ (' ' :: natToDigits n) from by simp]
  rw [show (15 : Nat) = ("Content-Length:".toList).length from rfl, List.drop_left]
  have htrim : trimChars (' ' :: natToDigits n) = natToDigits n := by
    unfold trimChars
    rw [List.dropWhile_cons, if_pos (by decide)]
    rw [dropWhile_all_false _ _
      (fun c hc => digit_not_ws c (natToDigits_digits n c hc))]
    rw [dropWhile_all_false _ _
      (fun c hc => digit_not_ws c (natToDigits_digits n c (List.mem_reverse.mp hc)))]
    exact List.reverse_reverse _
  rw [htrim, parseNatDigits_natToDigits]

/-! ### Serde round trip on `DAPMessage` values -/

theorem ofWire_toWire (mt : MessageType) :
    MessageType.ofWire mt.toWire = some mt := by
  cases mt <;> rfl

theorem optField_str (fields : List (String × Json)) (k : String)
    (s : Option String) (h : List.lookup k fields = some (optStrJson s)) :
    optField fields k Json.asStr = some s := by
  unfold optField
  rw [h]
  cases s <;> rfl

theorem optField_int (fields : List (String × Json)) (k : String)
    (v : Option Int) (h : List.lookup k fields = some (optIntJson v)) :
    optField fields k Json.asI64 = some v := by
  unfold optField
  rw [h]
  cases v <;> rfl

theorem optField_bool (fields : List (String × Json)) (k : String)
    (v : Option Bool) (h : List.lookup k fields = some (optBoolJson v)) :
    optField fields k Json.asBool = some v := by
  unfold optField
  rw [h]
  cases v <;> rfl

theorem optField_val (fields : List (String × Json)) (k : String)
    (v : Option Json) (h : List.lookup k fields = some (optValJson v))
    (hv : v ≠ some Json.null) :
    optField fields k some = some v := by
  unfold optField
  rw [h]
  cases v with
  | none => rfl
  | some w => cases w <;> first | exact absurd rfl hv | rfl

theorem fromJson_toJson (m : DAPMessage) (hb : m.body ≠ some Json.null)
    (ha : m.arguments ≠ some Json.null) :
    DAPMessage.fromJson (DAPMessage.toJson m) = some m := by
  obtain ⟨seqv, mt, cmd, rseq, succ, bodyv, ev, args⟩ := m
  show DAPMessage.fromJson (Json.obj
    [("seq", Json.num seqv), ("type", Json.str mt.toWire),
     ("command", optStrJson cmd), ("request_seq", optIntJson rseq),
     ("success", optBoolJson succ), ("body", optValJson bodyv),
     ("event", optStrJson ev), ("arguments", optValJson args)]) = _
  set flds : List (String × Json) :=
    [("seq", Json.num seqv), ("type", Json.str mt.toWire),
     ("command", optStrJson cmd), ("request_seq", optIntJson rseq),
     ("success", optBoolJson succ), ("body", optValJson bodyv),
     ("event", optStrJson ev), ("arguments", optValJson args)] with hflds
  have e1 : (List.lookup "seq" flds).bind Json.asI64 = some seqv := by
    rw [hflds]
    rfl
  have e2 : ((List.lookup "type" flds).bind Json.asStr).bind MessageType.ofWire =
      some mt := by
    rw [hflds]
    exact ofWire_toWire mt
  have e3 : optField flds "command" Json.asStr = some cmd := by
    rw [hflds]
    exact optField_str _ _ cmd rfl
  have e4 : optField flds "request_seq" Json.asI64 = some rseq := by
    rw [hflds]
    exact optField_int _ _ rseq rfl
  have e5 : optField flds "success" Json.asBool = some succ := by
    rw [hflds]
    exact optField_bool _ _ succ rfl
  have e6 : optField flds "body" some = some bodyv := by
    rw [hflds]
    exact optField_val _ _ bodyv rfl hb
  have e7 : optField flds "event" Json.asStr = some ev := by
    rw [hflds]
    exact optField_str _ _ ev rfl
  have e8 : optField flds "arguments" some = some args := by
    rw [hflds]
    exact optField_val _ _ args rfl ha
  simp only [DAPMessage.fromJson, e1, e2, e3, e4, e5, e6, e7, e8]

/-! ### JSON printer/reader round trip -/

theorem hexVal_digitChar (d : Nat) (h : d < 16) :
    hexVal (Nat.digitChar d) = some d := by
  interval_cases d <;> decide

theorem String.mk_toList (s : String) : String.mk s.toList = s := by
  cases s
  rfl

theorem skipWs_cons_not_ws (c : Char) (l : List Char) (h : isWsChar c = false) :
    skipWs (c :: l) = c :: l := by
  simp [skipWs, List.dropWhile_cons, h]

theorem jsonFuel_pos (j : Json) : 1 ≤ jsonFuel j := by
  cases j <;> simp [jsonFuel]

theorem parseStringChars_escape (l : List Char) :
    ∀ (acc rest : List Char),
      parseStringChars acc (escapeString l ++ ('"' :: rest)) =
        some (acc ++ l, rest) := by
  induction l with
  | nil =>
    intro acc rest
    show parseStringChars acc ('"' :: rest) = _
    rw [parseStringChars.eq_def]
    simp
  | cons c l ih =>
    intro acc rest
    show parseStringChars acc ((escapeChar c ++ escapeString l) ++ ('"' :: rest)) =
      some (acc ++ c :: l, rest)
    rw [List.append_assoc]
    by_cases h1 : c = '"'
    · subst h1
      rw [show escapeChar '"' ++ (escapeString l ++ ('"' :: rest)) =
        '\\' :: '"' :: (escapeString l ++ ('"' :: rest)) from rfl,
        parseStringChars.eq_def]
      simp [ih (acc ++ ['"']) rest]
    · by_cases h2 : c = '\\'
      · subst h2
        rw [show escapeChar '\\' ++ (escapeString l ++ ('"' :: rest)) =
          '\\' :: '\\' :: (escapeString l ++ ('"' :: rest)) from rfl,
          parseStringChars.eq_def]
        simp [ih (acc ++ ['\\']) rest]
      · by_cases h3 : c = '\x08'
        · subst h3
          rw [show escapeChar '\x08' ++ (escapeString l ++ ('"' :: rest)) =
            '\\' :: 'b' :: (escapeString l ++ ('"' :: rest)) from rfl,
            parseStringChars.eq_def]
          simp [ih (acc ++ ['\x08']) rest]
        · by_cases h4 : c = '\x09'
          · subst h4
            rw [show escapeChar '\x09' ++ (escapeString l ++ ('"' :: rest)) =
              '\\' :: 't' :: (escapeString l ++ ('"' :: rest)) from rfl,
              parseStringChars.eq_def]
            simp [ih (acc ++ ['\x09']) rest]
          · by_cases h5 : c = '\x0a'
            · subst h5
              rw [show escapeChar '\x0a' ++ (escapeString l ++ ('"' :: rest)) =
                '\\' :: 'n' :: (escapeString l ++ ('"' :: rest)) from rfl,
                parseStringChars.eq_def]
              simp [ih (acc ++ ['\x0a']) rest]
            · by_cases h6 : c = '\x0c'
              · subst h6
                rw [show escapeChar '\x0c' ++ (escapeString l ++ ('"' :: rest)) =
                  '\\' :: 'f' :: (escapeString l ++ ('"' :: rest)) from rfl,
                  parseStringChars.eq_def]
                simp [ih (acc ++ ['\x0c']) rest]
              · by_cases h7 : c = '\x0d'
                · subst h7
                  rw [show escapeChar '\x0d' ++ (escapeString l ++ ('"' :: rest)) =
                    '\\' :: 'r' :: (escapeString l ++ ('"' :: rest)) from rfl,
                    parseStringChars.eq_def]
                  simp [ih (acc ++ ['\x0d']) rest]
                · by_cases h8 : c.toNat < 32
                  · have hesc : escapeChar c = ['\\', 'u', '0', '0',
                        Nat.digitChar (c.toNat / 16), Nat.digitChar (c.toNat % 16)] := by
                      unfold escapeChar
                      rw [if_neg h1, if_neg h2, if_neg h3, if_neg h4, if_neg h5,
                        if_neg h6, if_neg h7, if_pos h8]
                    rw [hesc,
                      show (['\\', 'u', '0', '0', Nat.digitChar (c.toNat / 16),
                          Nat.digitChar (c.toNat % 16)] : List Char) ++
                          (escapeString l ++ ('"' :: rest)) =
                        '\\' :: 'u' :: '0' :: '0' :: Nat.digitChar (c.toNat / 16) ::
                          Nat.digitChar (c.toNat % 16) ::
                          (escapeString l ++ ('"' :: rest)) from rfl,
                      parseStringChars.eq_def]
                    have hd1 : hexVal (Nat.digitChar (c.toNat / 16)) =
                        some (c.toNat / 16) := hexVal_digitChar _ (by omega)
                    have hd2 : hexVal (Nat.digitChar (c.toNat % 16)) =
                        some (c.toNat % 16) := hexVal_digitChar _ (Nat.mod_lt _ (by omega))
                    have hcode : c.toNat / 16 * 16 + c.toNat % 16 = c.toNat := by
                      omega
                    have hlt : c.toNat < 55296 := by omega
                    have h0 : hexVal '0' = some 0 := rfl
                    simp [h0, hd1, hd2, hcode, hlt, Char.ofNat_toNat,
                      ih (acc ++ [c]) rest]
                  · have hesc : escapeChar c = [c] := by
                      unfold escapeChar
                      rw [if_neg h1, if_neg h2, if_neg h3, if_neg h4, if_neg h5,
                        if_neg h6, if_neg h7, if_neg h8]
                    rw [hesc,
                      show ([c] : List Char) ++ (escapeString l ++ ('"' :: rest)) =
                        c :: (escapeString l ++ ('"' :: rest)) from rfl,
                      parseStringChars.eq_def]
                    simp [h1, h2, h8, ih (acc ++ [c]) rest]

theorem digits_takeWhile (k : Nat) (rest : List Char)
    (hrest : ∀ c t, rest = c :: t → c.isDigit = false) :
    (natToDigits k ++ rest).takeWhile Char.isDigit = natToDigits k ∧
      (natToDigits k ++ rest).drop
        ((natToDigits k ++ rest).takeWhile Char.isDigit).length = rest := by
  have h := takeWhile_append_all Char.isDigit (natToDigits k) rest
    (natToDigits_digits k) hrest
  refine ⟨h.1, ?_⟩
  rw [h.1, List.drop_left]

theorem printJson_head (j : Json) :
    ∃ c t, printJson j = c :: t ∧ isWsChar c = false ∧ c ≠ ']' ∧ c ≠ '}' := by
  cases j with
  | null =>
    refine ⟨'n', _, rfl, ?_, ?_, ?_⟩ <;> decide
  | bool b =>
    cases b
    case true => refine ⟨'t', _, rfl, ?_, ?_, ?_⟩ <;> decide
    case false => refine ⟨'f', _, rfl, ?_, ?_, ?_⟩ <;> decide
  | num n =>
    by_cases hn : n < 0
    · refine ⟨'-', natToDigits n.natAbs, ?_, by decide, by decide, by decide⟩
      simp [printJson, intToChars, hn]
    · rcases hd : natToDigits n.toNat with _ | ⟨c, t⟩
      · exact absurd hd (natToDigits_ne_nil _)
      · have hc : c.isDigit = true := by
          apply natToDigits_digits n.toNat
          rw [hd]
          simp
        refine ⟨c, t, ?_, digit_not_ws c hc, digit_not_lit c hc ']' (by decide),
          digit_not_lit c hc '}' (by decide)⟩
        simp [printJson, intToChars, hn, hd]
  | str s =>
    refine ⟨'"', _, rfl, ?_, ?_, ?_⟩ <;> decide
  | arr xs =>
    cases xs
    case nil => refine ⟨'[', _, rfl, ?_, ?_, ?_⟩ <;> decide
    case cons x xs => refine ⟨'[', _, rfl, ?_, ?_, ?_⟩ <;> decide
  | obj fs =>
    cases fs
    case nil => refine ⟨'{', _, rfl, ?_, ?_, ?_⟩ <;> decide
    case cons f fs => refine ⟨'{', _, rfl, ?_, ?_, ?_⟩ <;> decide

theorem skipWs_not_ws (c : Char) (h : isWsChar c = false) :
    ∀ l, skipWs (c :: l) = c :: l :=
  fun l => skipWs_cons_not_ws c l h

theorem natToDigits_isEmpty (n : Nat) : (natToDigits n).isEmpty = false := by
  rcases hd : natToDigits n with _ | ⟨c, t⟩
  · exact absurd hd (natToDigits_ne_nil n)
  · rfl

theorem parsePrint : ∀ fuel : Nat,
    (∀ (j : Json) (rest : List Char), jsonFuel j ≤ fuel →
        (∀ c t, rest = c :: t → c.isDigit = false) →
        parseValue fuel (printJson j ++ rest) = some (j, rest))
    ∧ (∀ (x : Json) (xs : List Json) (acc : List Json) (rest : List Char),
        listFuel (x :: xs) ≤ fuel →
        parseListItems fuel ((printJson x ++ printListRest xs) ++ (']' :: rest))
            acc =
          some (Json.arr (acc ++ x :: xs), rest))
    ∧ (∀ (k : String) (v : Json) (fs : List (String × Json))
        (acc : List (String × Json)) (rest : List Char),
        fieldsFuel ((k, v) :: fs) ≤ fuel →
        parseObjItems fuel
            ((printField (k, v) ++ printFieldsRest fs) ++ ('}' :: rest)) acc =
          some (Json.obj (acc ++ (k, v) :: fs), rest)) := by
  intro fuel
  induction fuel with
  | zero =>
    refine ⟨?_, ?_, ?_⟩
    · intro j rest hf _
      have := jsonFuel_pos j
      omega
    · intro x xs acc rest hf
      simp [listFuel] at hf
    · intro k v fs acc rest hf
      simp [fieldsFuel] at hf
  | succ fuel ih =>
    obtain ⟨ihP, ihQ, ihR⟩ := ih
    refine ⟨?_, ?_, ?_⟩
    · intro j rest hf hrest
      cases j with
      | null =>
        rw [show printJson Json.null ++ rest = 'n' :: 'u' :: 'l' :: 'l' :: rest
          from rfl, parseValue.eq_def]
        have hp : ("ull".toList).isPrefixOf ('u' :: 'l' :: 'l' :: rest) = true :=
          isPrefixOf_append_self ['u', 'l', 'l'] rest
        simp [skipWs, isWsChar, hp]
      | bool b =>
        cases b with
        | true =>
          rw [show printJson (Json.bool true) ++ rest =
            't' :: 'r' :: 'u' :: 'e' :: rest from rfl, parseValue.eq_def]
          have hp : ("rue".toList).isPrefixOf ('r' :: 'u' :: 'e' :: rest) = true :=
            isPrefixOf_append_self ['r', 'u', 'e'] rest
          simp [skipWs, isWsChar, hp]
        | false =>
          rw [show printJson (Json.bool false) ++ rest =
            'f' :: 'a' :: 'l' :: 's' :: 'e' :: rest from rfl, parseValue.eq_def]
          have hp : ("alse".toList).isPrefixOf ('a' :: 'l' :: 's' :: 'e' :: rest) =
              true := isPrefixOf_append_self ['a', 'l', 's', 'e'] rest
          simp [skipWs, isWsChar, hp]
      | num n =>
        by_cases hn : n < 0
        · have ht := digits_takeWhile n.natAbs rest hrest
          rw [show printJson (Json.num n) = intToChars n from rfl, intToChars,
            if_pos hn, List.cons_append, parseValue.eq_def]
          have hval : -|n| = n := by
            rw [abs_of_neg hn]
            ring
          have hdv := digitsVal_natToDigits n.natAbs
          simp [skipWs, isWsChar, ht.1, ht.2, natToDigits_isEmpty, hdv,
            Int.ofNat_eq_natCast, hval, List.drop_left]
        · have ht := digits_takeWhile n.toNat rest hrest
          rcases hdd : natToDigits n.toNat with _ | ⟨c₀, t₀⟩
          · exact absurd hdd (natToDigits_ne_nil _)
          · have hc₀ : c₀.isDigit = true := by
              apply natToDigits_digits n.toNat
              rw [hdd]
              simp
            have hne1 := digit_not_lit c₀ hc₀ 'n' (by decide)
            have hne2 := digit_not_lit c₀ hc₀ 't' (by decide)
            have hne3 := digit_not_lit c₀ hc₀ 'f' (by decide)
            have hne4 := digit_not_lit c₀ hc₀ '"' (by decide)
            have hne5 := digit_not_lit c₀ hc₀ '-' (by decide)
            have hws := digit_not_ws c₀ hc₀
            have hval : (n.toNat : Int) = n := by omega
            have hdv := digitsVal_natToDigits n.toNat
            rw [hdd] at ht hdv
            rw [List.cons_append] at ht
            rw [show printJson (Json.num n) = intToChars n from rfl, intToChars,
              if_neg hn, hdd, List.cons_append, parseValue.eq_def]
            simp [skipWs, List.dropWhile_cons, hws, hne1, hne2, hne3, hne4,
              hne5, hc₀, ht.1, ht.2, hdv, Int.ofNat_eq_natCast, hval]
      | str s =>
        rw [show printJson (Json.str s) ++ rest =
          '"' :: (escapeString s.toList ++ ('"' :: rest)) from by
            simp [printJson, printStr]]
        rw [show parseValue (fuel + 1)
            ('"' :: (escapeString s.toList ++ ('"' :: rest))) =
          (parseStringChars [] (escapeString s.toList ++ ('"' :: rest))).map
            (fun r => (Json.str (String.mk r.1), r.2)) from rfl]
        rw [parseStringChars_escape s.toList [] rest]
        simp [String.mk_toList]
      | arr xs =>
        cases xs with
        | nil =>
          rw [show printJson (Json.arr []) ++ rest = '[' :: ']' :: rest from rfl,
            parseValue.eq_def]
          have hnd : Char.isDigit '[' = false := by decide
          simp [skipWs, isWsChar, hnd]
        | cons x xs =>
          obtain ⟨c₀, t₀, hpj, hws, hbr, hbr2⟩ := printJson_head x
          have hfx : listFuel (x :: xs) ≤ fuel := by
            simp [jsonFuel] at hf
            omega
          rw [show printJson (Json.arr (x :: xs)) ++ rest =
            '[' :: ((printJson x ++ printListRest xs) ++ (']' :: rest)) from by
              simp [printJson]]
          rw [show parseValue (fuel + 1)
              ('[' :: ((printJson x ++ printListRest xs) ++ (']' :: rest))) =
            (match skipWs ((printJson x ++ printListRest xs) ++ (']' :: rest)) with
             | ']' :: rest' => some (Json.arr [], rest')
             | cs' => parseListItems fuel cs' []) from rfl]
          rw [show skipWs ((printJson x ++ printListRest xs) ++ (']' :: rest)) =
            (printJson x ++ printListRest xs) ++ (']' :: rest) from by
              rw [hpj]
              simp only [List.cons_append]
              exact skipWs_not_ws c₀ hws _]
          split
          · next rest' heq =>
            rw [hpj] at heq
            simp only [List.cons_append] at heq
            exact absurd (List.cons_eq_cons.mp heq).1 hbr
          · next =>
            rw [ihQ x xs [] rest hfx]
            simp
      | obj fs =>
        cases fs with
        | nil =>
          rw [show printJson (Json.obj []) ++ rest = '{' :: '}' :: rest from rfl,
            parseValue.eq_def]
          have hnd : Char.isDigit '{' = false := by decide
          simp [skipWs, isWsChar, hnd]
        | cons f fs =>
          obtain ⟨k, v⟩ := f
          have hfx : fieldsFuel ((k, v) :: fs) ≤ fuel := by
            simp [jsonFuel] at hf
            omega
          rw [show printJson (Json.obj ((k, v) :: fs)) ++ rest =
            '{' :: ((printField (k, v) ++ printFieldsRest fs) ++ ('}' :: rest))
            from by simp [printJson]]
          rw [show parseValue (fuel + 1)
              ('{' :: ((printField (k, v) ++ printFieldsRest fs) ++
                ('}' :: rest))) =
            (match skipWs ((printField (k, v) ++ printFieldsRest fs) ++
                ('}' :: rest)) with
             | '}' :: rest' => some (Json.obj [], rest')
             | cs' => parseObjItems fuel cs' []) from rfl]
          rw [show skipWs ((printField (k, v) ++ printFieldsRest fs) ++
              ('}' :: rest)) = (printField (k, v) ++ printFieldsRest fs) ++
              ('}' :: rest) from by
            rw [show printField (k, v) = '"' ::
              (escapeString k.toList ++ ['"'] ++ (':' :: printJson v)) from by
                simp [printField, printStr]]
            simp only [List.cons_append]
            exact skipWs_not_ws '"' (by decide) _]
          split
          · next rest' heq =>
            rw [show printField (k, v) = '"' ::
              (escapeString k.toList ++ ['"'] ++ (':' :: printJson v)) from by
                simp [printField, printStr]] at heq
            simp only [List.cons_append] at heq
            exact absurd (List.cons_eq_cons.mp heq).1 (by decide)
          · next =>
            rw [ihR k v fs [] rest hfx]
            simp
    · intro x xs acc rest hf
      have hfx : jsonFuel x ≤ fuel := by
        simp [listFuel] at hf
        omega
      have hrest : ∀ c t, (printListRest xs ++ (']' :: rest)) = c :: t →
          c.isDigit = false := by
        cases xs with
        | nil =>
          intro c t h
          simp [printListRest] at h
          rw [← h.1]
          decide
        | cons y ys =>
          intro c t h
          simp [printListRest] at h
          rw [← h.1]
          decide
      rw [show parseListItems (fuel + 1)
          ((printJson x ++ printListRest xs) ++ (']' :: rest)) acc =
        (match parseValue fuel ((printJson x ++ printListRest xs) ++
            (']' :: rest)) with
         | none => none
         | some (v, rest0) =>
           match skipWs rest0 with
           | ',' :: rest' => parseListItems fuel rest' (acc ++ [v])
           | ']' :: rest' => some (Json.arr (acc ++ [v]), rest')
           | _ => none) from rfl]
      rw [List.append_assoc, ihP x (printListRest xs ++ (']' :: rest)) hfx hrest]
      cases xs with
      | nil =>
        simp [printListRest, skipWs, isWsChar]
      | cons y ys =>
        have hfy : listFuel (y :: ys) ≤ fuel := by
          have := jsonFuel_pos x
          simp [listFuel] at hf ⊢
          omega
        have hq := ihQ y ys (acc ++ [x]) rest hfy
        rw [show printListRest (y :: ys) ++ (']' :: rest) =
          ',' :: ((printJson y ++ printListRest ys) ++ (']' :: rest)) from by
            simp [printListRest]]
        dsimp only
        rw [show skipWs (',' :: ((printJson y ++ printListRest ys) ++
          (']' :: rest))) = ',' :: ((printJson y ++ printListRest ys) ++
          (']' :: rest)) from skipWs_not_ws ',' (by decide) _]
        simp only []
        rw [hq]
        simp
    · intro k v fs acc rest hf
      have hfv : jsonFuel v ≤ fuel := by
        simp [fieldsFuel] at hf
        omega
      have hrest : ∀ c t, (printFieldsRest fs ++ ('}' :: rest)) = c :: t →
          c.isDigit = false := by
        cases fs with
        | nil =>
          intro c t h
          simp [printFieldsRest] at h
          rw [← h.1]
          decide
        | cons g gs =>
          intro c t h
          simp [printFieldsRest] at h
          rw [← h.1]
          decide
      rw [show (printField (k, v) ++ printFieldsRest fs) ++ ('}' :: rest) =
        '"' :: (escapeString k.toList ++ ('"' :: (':' :: (printJson v ++
          (printFieldsRest fs ++ ('}' :: rest)))))) from by
            simp [printField, printStr]]
      rw [show parseObjItems (fuel + 1)
          ('"' :: (escapeString k.toList ++ ('"' :: (':' :: (printJson v ++
            (printFieldsRest fs ++ ('}' :: rest))))))) acc =
        (match parseStringChars [] (escapeString k.toList ++ ('"' :: (':' ::
            (printJson v ++ (printFieldsRest fs ++ ('}' :: rest)))))) with
         | none => none
         | some (k1, rest1) =>
           match skipWs rest1 with
           | ':' :: rest2 =>
             match parseValue fuel rest2 with
             | none => none
             | some (v1, rest3) =>
               match skipWs rest3 with
               | ',' :: rest4 =>
                 parseObjItems fuel rest4 (acc ++ [(String.mk k1, v1)])
               | '}' :: rest4 =>
                 some (Json.obj (acc ++ [(String.mk k1, v1)]), rest4)
               | _ => none
           | _ => none) from rfl]
      rw [parseStringChars_escape k.toList []
        (':' :: (printJson v ++ (printFieldsRest fs ++ ('}' :: rest))))]
      simp only [List.nil_append]
      rw [show skipWs (':' :: (printJson v ++ (printFieldsRest fs ++
        ('}' :: rest)))) = ':' :: (printJson v ++ (printFieldsRest fs ++
        ('}' :: rest))) from skipWs_not_ws ':' (by decide) _]
      simp only []
      rw [ihP v (printFieldsRest fs ++ ('}' :: rest)) hfv hrest]
      cases fs with
      | nil =>
        simp [printFieldsRest, skipWs, isWsChar, String.mk_toList]
      | cons g gs =>
        obtain ⟨k2, v2⟩ := g
        have hfg : fieldsFuel ((k2, v2) :: gs) ≤ fuel := by
          have := jsonFuel_pos v
          simp [fieldsFuel] at hf ⊢
          omega
        have hq := ihR k2 v2 gs (acc ++ [(String.mk k.toList, v)]) rest hfg
        rw [show printFieldsRest ((k2, v2) :: gs) ++ ('}' :: rest) =
          ',' :: ((printField (k2, v2) ++ printFieldsRest gs) ++ ('}' :: rest))
          from by simp [printFieldsRest]]
        dsimp only
        rw [show skipWs (',' :: ((printField (k2, v2) ++ printFieldsRest gs) ++
          ('}' :: rest))) = ',' :: ((printField (k2, v2) ++ printFieldsRest gs) ++
          ('}' :: rest)) from skipWs_not_ws ',' (by decide) _]
        simp only []
        rw [hq]
        simp [String.mk_toList]

theorem intToChars_ne_nil (n : Int) : intToChars n ≠ [] := by
  unfold intToChars
  split
  · simp
  · exact natToDigits_ne_nil _

mutual

theorem jsonFuel_le_printLen (j : Json) : jsonFuel j ≤ (printJson j).length := by
  cases j with
  | null => simp [jsonFuel, printJson]
  | bool b => cases b <;> simp [jsonFuel, printJson]
  | num n =>
    have := intToChars_ne_nil n
    have hlen : 1 ≤ (intToChars n).length := by
      rcases hi : intToChars n with _ | ⟨c, t⟩
      · exact absurd hi this
      · simp
    simpa [jsonFuel, printJson] using hlen
  | str s => simp [jsonFuel, printJson, printStr]
  | arr xs =>
    cases xs with
    | nil => simp [jsonFuel, listFuel, printJson]
    | cons x xs =>
      have h1 := jsonFuel_le_printLen x
      have h2 := listFuel_le_printLen xs
      simp [jsonFuel, listFuel, printJson]
      omega
  | obj fs =>
    cases fs with
    | nil => simp [jsonFuel, fieldsFuel, printJson]
    | cons f fs =>
      obtain ⟨k, v⟩ := f
      have h1 := jsonFuel_le_printLen v
      have h2 := fieldsFuel_le_printLen fs
      simp [jsonFuel, fieldsFuel, printJson, printField, printStr]
      omega

theorem listFuel_le_printLen (xs : List Json) :
    listFuel xs ≤ (printListRest xs).length := by
  cases xs with
  | nil => simp [listFuel, printListRest]
  | cons x xs =>
    have h1 := jsonFuel_le_printLen x
    have h2 := listFuel_le_printLen xs
    simp [listFuel, printListRest]
    omega

theorem fieldsFuel_le_printLen (fs : List (String × Json)) :
    fieldsFuel fs ≤ (printFieldsRest fs).length := by
  cases fs with
  | nil => simp [fieldsFuel, printFieldsRest]
  | cons f fs =>
    obtain ⟨k, v⟩ := f
    have h1 := jsonFuel_le_printLen v
    have h2 := fieldsFuel_le_printLen fs
    simp [fieldsFuel, printFieldsRest, printField, printStr]
    omega

end

theorem decodeDAPBody_print (m : DAPMessage) (hb : m.body ≠ some Json.null)
    (ha : m.arguments ≠ some Json.null) :
    decodeDAPBody (printJson m.toJson) = some m := by
  unfold decodeDAPBody
  have hp := (parsePrint ((printJson (DAPMessage.toJson m)).length + 1)).1
    (DAPMessage.toJson m) []
    (by have := jsonFuel_le_printLen (DAPMessage.toJson m); omega)
    (fun c t h => nomatch h)
  rw [List.append_nil] at hp
  rw [hp]
  simp [skipWs, fromJson_toJson m hb ha]

theorem splitHeader_mkFrame (body tail : List Char) :
    splitHeader [] (mkFrame body ++ tail) =
      some (("Content-Length: ".toList ++ natToDigits body.length) ++ headerTerm,
        body ++ tail) := by
  have hnocr : '\r' ∉ "Content-Length: ".toList ++ natToDigits body.length := by
    intro hm
    rcases List.mem_append.mp hm with hm | hm
    · revert hm
      decide
    · exact not_mem_natToDigits _ '\r' (by decide) hm
  have h := splitHeader_append
    ("Content-Length: ".toList ++ natToDigits body.length) (body ++ tail) []
    (by simp) hnocr
  rw [List.nil_append] at h
  rw [show mkFrame body ++ tail =
    ("Content-Length: ".toList ++ natToDigits body.length) ++
      (headerTerm ++ (body ++ tail)) from by simp [mkFrame]]
  exact h

theorem receiverRun_succ (fuel : Nat) (st : ReceiverState)
    (loc : Option (String × Int)) (cs : List Char) :
    receiverRun (fuel + 1) st loc cs =
      (match splitHeader [] cs with
       | none => (st, [])
       | some (header, rest) =>
         match contentLengthOf header with
         | none => receiverRun fuel st loc rest
         | some len =>
           if rest.length < len then (st, [])
           else
             match decodeDAPBody (rest.take len) with
             | none => receiverRun fuel st loc (rest.drop len)
             | some msg =>
               let r := process_message st loc msg
               let r2 := receiverRun fuel r.1 loc (rest.drop len)
               (r2.1, r.2 ++ r2.2)) := rfl

theorem receiverRun_skip (fuel : Nat) (st : ReceiverState)
    (loc : Option (String × Int)) (junk tail : List Char)
    (hjunk : decodeDAPBody junk = none) :
    receiverRun (fuel + 1) st loc (mkFrame junk ++ tail) =
      receiverRun fuel st loc tail := by
  rw [receiverRun_succ, splitHeader_mkFrame junk tail]
  dsimp only
  rw [contentLengthOf_header]
  dsimp only
  rw [if_neg (by rw [List.length_append]; omega :
    ¬ (junk ++ tail).length < junk.length)]
  rw [List.take_left, List.drop_left, hjunk]

theorem receiverRun_frame (fuel : Nat) (st : ReceiverState)
    (loc : Option (String × Int)) (m : DAPMessage) (tail : List Char)
    (hb : m.body ≠ some Json.null) (ha : m.arguments ≠ some Json.null) :
    receiverRun (fuel + 1) st loc (encodeMessage m ++ tail) =
      ((receiverRun fuel (process_message st loc m).1 loc tail).1,
        (process_message st loc m).2 ++
          (receiverRun fuel (process_message st loc m).1 loc tail).2) := by
  rw [show encodeMessage m ++ tail = mkFrame (printJson m.toJson) ++ tail
    from rfl]
  rw [receiverRun_succ, splitHeader_mkFrame]
  dsimp only
  rw [contentLengthOf_header]
  dsimp only
  rw [if_neg (by rw [List.length_append]; omega :
    ¬ (printJson m.toJson ++ tail).length < (printJson m.toJson).length)]
  rw [List.take_left, List.drop_left, decodeDAPBody_print m hb ha]

/-- C5.  The frame codec is a round trip: for every `DAPMessage` whose
optional `body` and `arguments` are not the explicit JSON `null` value
(serde collapses `Some(Value::Null)` to `None` on read, see the
counterexample), decoding the frame produced by `encodeMessage`
(`Content-Length` header, CRLF CRLF, serialized JSON body) yields the
original message with nothing left over. -/
theorem frame_codec_round_trip (m : DAPMessage)
    (hb : m.body ≠ some Json.null) (ha : m.arguments ≠ some Json.null) :
    decodeMessage (encodeMessage m) = some (m, []) := by
  have hs := splitHeader_mkFrame (printJson m.toJson) []
  simp only [List.append_nil] at hs
  show decodeMessage (mkFrame (printJson m.toJson)) = some (m, [])
  unfold decodeMessage
  rw [hs]
  dsimp only
  rw [contentLengthOf_header]
  dsimp only
  rw [if_neg (lt_irrefl _)]
  rw [List.take_length, decodeDAPBody_print m hb ha]
  simp only [List.drop_length]
  rfl

theorem frame_codec_round_trip_witness :
    decodeMessage (encodeMessage stoppedMsg) = some (stoppedMsg, []) :=
  frame_codec_round_trip stoppedMsg
    (fun h => Json.noConfusion (Option.some.inj h))
    (fun h => Option.noConfusion h)

/-- C5 counterexample: a message whose `body` is `Some(Value::Null)`
serializes that field as JSON `null`, which deserializes back to `None`;
the round trip through the frame codec does not return the original
message. -/
theorem null_body_round_trip_fails :
    decodeMessage (encodeMessage nullBodyMsg) ≠ some (nullBodyMsg, []) := by
  intro h
  have h2 : decodeMessage (encodeMessage nullBodyMsg) =
      some ({ nullBodyMsg with body := none }, []) := by
    set_option maxRecDepth 20000 in rfl
  rw [h2] at h
  have h3 := congrArg (fun p => p.1.body) (Option.some.inj h)
  exact Option.noConfusion h3

/-- C7.  The receiver loop survives a malformed frame body: a frame whose
header carries a valid `Content-Length` but whose body does not parse as
a `DAPMessage` is skipped without terminating the loop, changing the
tables, the state record, or the emissions, and the next well-formed
frame in the stream is framed and dispatched exactly as it would have
been on its own. -/
theorem receiver_survives_malformed_frame (fuel : Nat) (st : ReceiverState)
    (loc : Option (String × Int)) (junk : List Char) (m : DAPMessage)
    (tail : List Char)
    (hjunk : decodeDAPBody junk = none)
    (hb : m.body ≠ some Json.null) (ha : m.arguments ≠ some Json.null) :
    receiverRun (fuel + 2) st loc (mkFrame junk ++ (encodeMessage m ++ tail)) =
      ((receiverRun fuel (process_message st loc m).1 loc tail).1,
        (process_message st loc m).2 ++
          (receiverRun fuel (process_message st loc m).1 loc tail).2) := by
  rw [show fuel + 2 = (fuel + 1) + 1 from rfl]
  rw [receiverRun_skip (fuel + 1) st loc junk (encodeMessage m ++ tail) hjunk]
  exact receiverRun_frame fuel st loc m tail hb ha

theorem receiver_survives_malformed_frame_witness :
    receiverRun 2 sampleState none
        (mkFrame "abcdefghij".toList ++ (encodeMessage continuedEventMsg ++ [])) =
      ((receiverRun 0 (process_message sampleState none continuedEventMsg).1
          none []).1,
        (process_message sampleState none continuedEventMsg).2 ++
          (receiverRun 0 (process_message sampleState none continuedEventMsg).1
            none []).2) :=
  receiver_survives_malformed_frame 0 sampleState none "abcdefghij".toList
    continuedEventMsg [] (by rfl)
    (fun h => Option.noConfusion h) (fun h => Option.noConfusion h)

/-- C9.  For the launch-style (`rust`/LLDB) adapter, `evaluate_expression`
rewrites every expression not already prefixed with `expr ` or
`expression ` to `expr -- <expression>` before sending the evaluate
request, and `parse_lldb_result` post-processes the returned result
string `(lldb) expr -- a + b\n(int) $0 = 12` to `12`. -/
theorem evaluate_rewrites_and_parses (e : String)
    (h1 : "expr ".toList.isPrefixOf e.toList = false)
    (h2 : "expression ".toList.isPrefixOf e.toList = false) :
    lldbRewrite e = "expr -- " ++ e ∧
    parse_lldb_result "(lldb) expr -- a + b\n(int) $0 = 12" = "12" := by
  constructor
  · rw [lldbRewrite, h1, h2]
    simp
  · rfl

theorem evaluate_rewrites_and_parses_witness :
    lldbRewrite "a + b" = "expr -- " ++ "a + b" ∧
    parse_lldb_result "(lldb) expr -- a + b\n(int) $0 = 12" = "12" :=
  evaluate_rewrites_and_parses "a + b" (by decide) (by decide)
